import Mathlib

/-!
# vkgs: the splat ordering compute pass and the graphics-pipeline wrapper

A shallow embedding of

* `src/pygs/engine/vulkan/shader/order.h` (the GLSL compute shader `order_comp`), and
* `src/pygs/engine/vulkan/graphics_pipeline.cc` (`CreateShaderModule`, `GraphicsPipeline::Impl`).

The shader is written once, over an arbitrary scalar type `α` whose arithmetic is supplied by a
record `FloatOps α`.  Two readings are used:

* `F32.ops`: IEEE-754 binary32 on bit patterns, round-to-nearest-even, executable;
* exact real arithmetic, characterised by the predicate `FloatOps.IsExact`.

Unsigned 32-bit integers are natural numbers reduced modulo `2 ^ 32`.
-/

namespace pygs

/-! ## GLSL vectors and matrices (matrices are stored by columns, as in GLSL) -/

/-- GLSL `vec2`. -/
structure Vec2 (α : Type) where
  x : α
  y : α
deriving DecidableEq, Repr

/-- GLSL `vec3`. -/
structure Vec3 (α : Type) where
  x : α
  y : α
  z : α
deriving DecidableEq, Repr

/-- GLSL `vec4`. -/
structure Vec4 (α : Type) where
  x : α
  y : α
  z : α
  w : α
deriving DecidableEq, Repr

/-- GLSL `mat2`: two columns; `m[i]` is column `i`, `m[i][j]` is column `i`, row `j`. -/
structure Mat2 (α : Type) where
  c0 : Vec2 α
  c1 : Vec2 α
deriving DecidableEq, Repr

/-- GLSL `mat3`: three columns. -/
structure Mat3 (α : Type) where
  c0 : Vec3 α
  c1 : Vec3 α
  c2 : Vec3 α
deriving DecidableEq, Repr

/-- GLSL `mat4`: four columns. -/
structure Mat4 (α : Type) where
  c0 : Vec4 α
  c1 : Vec4 α
  c2 : Vec4 α
  c3 : Vec4 α
deriving DecidableEq, Repr

/-- The scalar operations the shader uses.  `le a b` is the comparison `a <= b` (and `b >= a`);
`lit m e` is the decimal literal `m / 10 ^ e` (`1.f` is `lit 1 0`, `0.0001f` is `lit 1 4`). -/
structure FloatOps (α : Type) where
  add : α → α → α
  sub : α → α → α
  mul : α → α → α
  div : α → α → α
  neg : α → α
  sqrt : α → α
  abs : α → α
  le : α → α → Bool
  lit : Nat → Nat → α
  floatBitsToUint : α → Nat

/-- Reduction of a natural number to an unsigned 32-bit integer. -/
def u32 (n : Nat) : Nat := n % 2 ^ 32

section Linear

variable {α : Type} (ops : FloatOps α)

/-- Sum of three products, accumulated left to right. -/
def dot3 (a0 b0 a1 b1 a2 b2 : α) : α :=
  ops.add (ops.add (ops.mul a0 b0) (ops.mul a1 b1)) (ops.mul a2 b2)

/-- Sum of four products, accumulated left to right. -/
def dot4 (a0 b0 a1 b1 a2 b2 a3 b3 : α) : α :=
  ops.add (ops.add (ops.add (ops.mul a0 b0) (ops.mul a1 b1)) (ops.mul a2 b2)) (ops.mul a3 b3)

/-- GLSL `mat4 * vec4`. -/
def Mat4.mulVec (m : Mat4 α) (v : Vec4 α) : Vec4 α :=
  { x := dot4 ops m.c0.x v.x m.c1.x v.y m.c2.x v.z m.c3.x v.w
    y := dot4 ops m.c0.y v.x m.c1.y v.y m.c2.y v.z m.c3.y v.w
    z := dot4 ops m.c0.z v.x m.c1.z v.y m.c2.z v.z m.c3.z v.w
    w := dot4 ops m.c0.w v.x m.c1.w v.y m.c2.w v.z m.c3.w v.w }

/-- GLSL `mat4 * mat4`: column `j` of the product is `a * (column j of b)`. -/
def Mat4.mul (a b : Mat4 α) : Mat4 α :=
  { c0 := Mat4.mulVec ops a b.c0
    c1 := Mat4.mulVec ops a b.c1
    c2 := Mat4.mulVec ops a b.c2
    c3 := Mat4.mulVec ops a b.c3 }

/-- GLSL `vec4 / float`, componentwise. -/
def Vec4.divScalar (v : Vec4 α) (s : α) : Vec4 α :=
  { x := ops.div v.x s, y := ops.div v.y s, z := ops.div v.z s, w := ops.div v.w s }

/-- GLSL `mat3 * vec3`. -/
def Mat3.mulVec (m : Mat3 α) (v : Vec3 α) : Vec3 α :=
  { x := dot3 ops m.c0.x v.x m.c1.x v.y m.c2.x v.z
    y := dot3 ops m.c0.y v.x m.c1.y v.y m.c2.y v.z
    z := dot3 ops m.c0.z v.x m.c1.z v.y m.c2.z v.z }

/-- GLSL `mat3 * mat3`. -/
def Mat3.mul (a b : Mat3 α) : Mat3 α :=
  { c0 := Mat3.mulVec ops a b.c0
    c1 := Mat3.mulVec ops a b.c1
    c2 := Mat3.mulVec ops a b.c2 }

/-- GLSL `mat2 * vec2`. -/
def Mat2.mulVec (m : Mat2 α) (v : Vec2 α) : Vec2 α :=
  { x := ops.add (ops.mul m.c0.x v.x) (ops.mul m.c1.x v.y)
    y := ops.add (ops.mul m.c0.y v.x) (ops.mul m.c1.y v.y) }

/-- GLSL `mat2 * mat2`. -/
def Mat2.mul (a b : Mat2 α) : Mat2 α :=
  { c0 := Mat2.mulVec ops a b.c0
    c1 := Mat2.mulVec ops a b.c1 }

/-- GLSL `length(vec3)`. -/
def Vec3.length (v : Vec3 α) : α :=
  ops.sqrt (dot3 ops v.x v.x v.y v.y v.z v.z)

end Linear

/-- GLSL `transpose(mat3)`. -/
def Mat3.transpose {α : Type} (m : Mat3 α) : Mat3 α :=
  { c0 := ⟨m.c0.x, m.c1.x, m.c2.x⟩
    c1 := ⟨m.c0.y, m.c1.y, m.c2.y⟩
    c2 := ⟨m.c0.z, m.c1.z, m.c2.z⟩ }

/-- GLSL `mat3(mat4)`: the upper-left 3x3 block. -/
def Mat4.toMat3 {α : Type} (m : Mat4 α) : Mat3 α :=
  { c0 := ⟨m.c0.x, m.c0.y, m.c0.z⟩
    c1 := ⟨m.c1.x, m.c1.y, m.c1.z⟩
    c2 := ⟨m.c2.x, m.c2.y, m.c2.z⟩ }

/-- GLSL `mat2(mat4)`: the upper-left 2x2 block. -/
def Mat4.toMat2 {α : Type} (m : Mat4 α) : Mat2 α :=
  { c0 := ⟨m.c0.x, m.c0.y⟩
    c1 := ⟨m.c1.x, m.c1.y⟩ }

/-- GLSL `mat2(mat3)`: the upper-left 2x2 block. -/
def Mat3.toMat2 {α : Type} (m : Mat3 α) : Mat2 α :=
  { c0 := ⟨m.c0.x, m.c0.y⟩
    c1 := ⟨m.c1.x, m.c1.y⟩ }

/-- GLSL `vec3(vec4)`: the first three components. -/
def Vec4.toVec3 {α : Type} (v : Vec4 α) : Vec3 α := ⟨v.x, v.y, v.z⟩

/-- A GLSL `mat3(...)` constructor call after its arguments have been flattened to nine scalars:
the components fill the matrix in column-major order. -/
def Mat3.ofComponents {α : Type} (a0 a1 a2 a3 a4 a5 a6 a7 a8 : α) : Mat3 α :=
  { c0 := ⟨a0, a1, a2⟩
    c1 := ⟨a3, a4, a5⟩
    c2 := ⟨a6, a7, a8⟩ }

/-- The rows of a `mat3`, top to bottom: row `i` lists `m[0][i], m[1][i], m[2][i]`. -/
def Mat3.rows {α : Type} (m : Mat3 α) : List (List α) :=
  [[m.c0.x, m.c1.x, m.c2.x], [m.c0.y, m.c1.y, m.c2.y], [m.c0.z, m.c1.z, m.c2.z]]

/-- The swizzle `v.xy`. -/
def Vec3.xy {α : Type} (v : Vec3 α) : Vec2 α := ⟨v.x, v.y⟩

/-- The swizzle `v.yz`. -/
def Vec3.yz {α : Type} (v : Vec3 α) : Vec2 α := ⟨v.y, v.z⟩

/-- An argument of a GLSL matrix constructor: a scalar or a vector. -/
inductive CtorArg (α : Type) where
  | scalar : α → CtorArg α
  | vec2 : Vec2 α → CtorArg α
  | vec3 : Vec3 α → CtorArg α

/-- The components an argument contributes, in order. -/
def CtorArg.components {α : Type} : CtorArg α → List α
  | .scalar a => [a]
  | .vec2 v => [v.x, v.y]
  | .vec3 v => [v.x, v.y, v.z]

/-- The GLSL constructor `mat3(args...)` from scalars and vectors: the arguments are flattened
left to right and must supply exactly nine components, which fill the matrix column by column. -/
def mat3Ctor {α : Type} (args : List (CtorArg α)) : Option (Mat3 α) :=
  match (args.map CtorArg.components).flatten with
  | [a0, a1, a2, a3, a4, a5, a6, a7, a8] => some (Mat3.ofComponents a0 a1 a2 a3 a4 a5 a6 a7 a8)
  | _ => none

section Forms

variable {α : Type} [Add α] [Mul α]

/-- The quadratic form `vᵀ M v` of a `mat3` at `v = (x, y, z)`. -/
def Mat3.quadForm (m : Mat3 α) (x y z : α) : α :=
  x * (m.c0.x * x + m.c1.x * y + m.c2.x * z) +
  y * (m.c0.y * x + m.c1.y * y + m.c2.y * z) +
  z * (m.c0.z * x + m.c1.z * y + m.c2.z * z)

/-- The quadratic form `vᵀ M v` of a `mat2` at `v = (x, y)`. -/
def Mat2.quadForm (m : Mat2 α) (x y : α) : α :=
  x * (m.c0.x * x + m.c1.x * y) + y * (m.c0.y * x + m.c1.y * y)

end Forms

/-- A `mat3` is symmetric. -/
def Mat3.IsSymm {α : Type} (m : Mat3 α) : Prop :=
  m.c1.x = m.c0.y ∧ m.c2.x = m.c0.z ∧ m.c2.y = m.c1.z

/-- A `mat2` is symmetric. -/
def Mat2.IsSymm {α : Type} (m : Mat2 α) : Prop := m.c1.x = m.c0.y

/-- A real `mat3` is positive semi-definite: symmetric with a non-negative quadratic form. -/
def Mat3.IsPSD (m : Mat3 ℝ) : Prop := m.IsSymm ∧ ∀ x y z : ℝ, 0 ≤ m.quadForm x y z

/-- A real `mat2` is positive semi-definite: symmetric with a non-negative quadratic form. -/
def Mat2.IsPSD (m : Mat2 ℝ) : Prop := m.IsSymm ∧ ∀ x y : ℝ, 0 ≤ m.quadForm x y

/-- Exact real arithmetic as a reading of `FloatOps`: every operation is the real one and a
literal is its decimal value. -/
structure FloatOps.IsExact (ops : FloatOps ℝ) : Prop where
  add : ∀ a b, ops.add a b = a + b
  sub : ∀ a b, ops.sub a b = a - b
  mul : ∀ a b, ops.mul a b = a * b
  div : ∀ a b, ops.div a b = a / b
  neg : ∀ a, ops.neg a = -a
  sqrt : ∀ a, ops.sqrt a = Real.sqrt a
  abs : ∀ a, ops.abs a = |a|
  le : ∀ a b, ops.le a b = true ↔ a ≤ b
  lit : ∀ m e : Nat, ops.lit m e = (m : ℝ) / 10 ^ e

/-! ## IEEE-754 binary32 on bit patterns

Finite values are integer multiples of `2 ^ (-149)`; `mag` is that multiple.  Results are rounded
to nearest, ties to even. -/

/-- A 32-bit float, given by its bit pattern. -/
structure F32 where
  bits : Nat
deriving DecidableEq, Repr

namespace F32

/-- The sign bit (bit 31). -/
def sign (f : F32) : Bool := f.bits / 2 ^ 31 % 2 = 1

/-- The biased exponent field (bits 23-30). -/
def expField (f : F32) : Nat := f.bits / 2 ^ 23 % 256

/-- The fraction field (bits 0-22). -/
def manField (f : F32) : Nat := f.bits % 2 ^ 23

/-- NaN: exponent field 255 and a non-zero fraction. -/
def isNaN (f : F32) : Bool := f.expField = 255 && f.manField != 0

/-- Infinity: exponent field 255 and a zero fraction. -/
def isInf (f : F32) : Bool := f.expField = 255 && f.manField = 0

/-- The magnitude in units of `2 ^ (-149)`; an infinity gets `2 ^ 277`, above every finite value. -/
def mag (f : F32) : Nat :=
  if f.expField = 0 then f.manField else (2 ^ 23 + f.manField) * 2 ^ (f.expField - 1)

/-- The signed value in units of `2 ^ (-149)`. -/
def toInt (f : F32) : Int := if f.sign then -(f.mag : Int) else (f.mag : Int)

/-- The canonical quiet NaN. -/
def nan : F32 := ⟨0x7FC00000⟩

/-- The bit pattern of +infinity; also the bound of the finite magnitudes. -/
def infBits : Nat := 0x7F800000

/-- A float from a sign and the bit pattern of a magnitude. -/
def ofSignMag (s : Bool) (m : Nat) : F32 := ⟨(if s then 2 ^ 31 else 0) + m⟩

/-- Floor of the binary logarithm, by halving; zero at zero. -/
def ilog2 : Nat → Nat → Nat
  | 0, _ => 0
  | fuel + 1, n => if n < 2 then 0 else ilog2 fuel (n / 2) + 1

/-- Round the non-negative value `N * 2 ^ (-(149 + s))` to the nearest binary32 magnitude, ties to
even; the result is the bit pattern without the sign bit, overflow gives infinity.  `k` is the
position in `N` of the unit in the last place. -/
def roundMag (N s : Nat) : Nat :=
  let k := max (ilog2 1024 N - 23) s
  let q := N / 2 ^ k
  let r := N % 2 ^ k
  let up := if 2 * r > 2 ^ k ∨ (2 * r = 2 ^ k ∧ q % 2 = 1) then 1 else 0
  min ((k - s) * 2 ^ 23 + q + up) infBits

/-- The correctly rounded quotient `a / b` of two naturals (`b` non-zero), as a magnitude: the
quotient is computed with two extra bits, the lowest one sticky. -/
def divMag (a b : Nat) : Nat :=
  let n := a * 2 ^ 150
  roundMag (2 * (n / b) + (if n % b = 0 then 0 else 1)) 2

/-- Floor of the square root, one bit at a time from bit `b - 1` down. -/
def isqrtAux (n : Nat) : Nat → Nat → Nat
  | 0, r => r
  | b + 1, r => isqrtAux n b (if (r + 2 ^ b) * (r + 2 ^ b) ≤ n then r + 2 ^ b else r)

/-- The correctly rounded square root of the magnitude `m` (in units of `2 ^ (-149)`). -/
def sqrtMag (m : Nat) : Nat :=
  let n := m * 2 ^ 151
  let r := isqrtAux n 256 0
  roundMag (2 * r + (if r * r = n then 0 else 1)) 2

/-- Negation: flip the sign bit. -/
def neg (a : F32) : F32 := ⟨if a.sign then a.bits - 2 ^ 31 else a.bits + 2 ^ 31⟩

/-- Absolute value: clear the sign bit. -/
def abs (a : F32) : F32 := ⟨if a.sign then a.bits - 2 ^ 31 else a.bits⟩

/-- Addition. -/
def add (a b : F32) : F32 :=
  if a.isNaN || b.isNaN then nan
  else if a.isInf then (if b.isInf && a.sign != b.sign then nan else a)
  else if b.isInf then b
  else
    let s := a.toInt + b.toInt
    if s = 0 then ofSignMag (a.sign && b.sign) 0
    else ofSignMag (decide (s < 0)) (roundMag s.natAbs 0)

/-- Subtraction: `a + (-b)`. -/
def sub (a b : F32) : F32 := add a (neg b)

/-- Multiplication. -/
def mul (a b : F32) : F32 :=
  if a.isNaN || b.isNaN then nan
  else if a.isInf || b.isInf then
    (if a.mag = 0 || b.mag = 0 then nan else ofSignMag (a.sign != b.sign) infBits)
  else ofSignMag (a.sign != b.sign) (roundMag (a.mag * b.mag) 149)

/-- Division. -/
def div (a b : F32) : F32 :=
  if a.isNaN || b.isNaN then nan
  else if a.isInf then (if b.isInf then nan else ofSignMag (a.sign != b.sign) infBits)
  else if b.isInf then ofSignMag (a.sign != b.sign) 0
  else if b.mag = 0 then (if a.mag = 0 then nan else ofSignMag (a.sign != b.sign) infBits)
  else ofSignMag (a.sign != b.sign) (divMag a.mag b.mag)

/-- Square root. -/
def sqrt (a : F32) : F32 :=
  if a.isNaN then nan
  else if a.mag = 0 then a
  else if a.sign then nan
  else if a.isInf then a
  else ⟨sqrtMag a.mag⟩

/-- The comparison `a <= b`; false when either operand is NaN. -/
def le (a b : F32) : Bool := !a.isNaN && !b.isNaN && decide (a.toInt ≤ b.toInt)

/-- The comparison `a < b`; false when either operand is NaN. -/
def lt (a b : F32) : Bool := !a.isNaN && !b.isNaN && decide (a.toInt < b.toInt)

/-- The decimal literal `m / 10 ^ e`, rounded to nearest. -/
def lit (m e : Nat) : F32 := ⟨divMag m (10 ^ e)⟩

/-- Binary32 arithmetic as a `FloatOps`. -/
def ops : FloatOps F32 :=
  { add := add, sub := sub, mul := mul, div := div, neg := neg, sqrt := sqrt, abs := abs
    le := le, lit := lit, floatBitsToUint := fun f => f.bits }

end F32

/-! ## The compute shader `order_comp` -/

/-- The read-only bindings of the shader: `Camera` (set 0), `Info`, `GaussianPosition` and
`GaussianCov3d` (set 1).  The two buffers are unsized arrays, read by index. -/
structure Scene (α : Type) where
  projection : Mat4 α
  view : Mat4 α
  point_count : Nat
  gaussian_position : Nat → α
  gaussian_cov3d : Nat → α

/-- The write-only bindings of the shader (set 2): the `DrawIndirect` block and the unsized
arrays `key[]` and `index[]`. -/
structure Output where
  indexCount : Nat
  instanceCount : Nat
  firstIndex : Nat
  vertexOffset : Int
  firstInstance : Nat
  key : Nat → Nat
  index : Nat → Nat

section Shader

variable {α : Type} (ops : FloatOps α) (sc : Scene α)

/-- Line 50 (and 59): `vec4(gaussian_position[id * 3 + 0], ..[id * 3 + 1], ..[id * 3 + 2], 1.f)`;
the index arithmetic is unsigned 32-bit. -/
def splatPos (id : Nat) : Vec4 α :=
  { x := sc.gaussian_position (u32 (u32 (id * 3) + 0))
    y := sc.gaussian_position (u32 (u32 (id * 3) + 1))
    z := sc.gaussian_position (u32 (u32 (id * 3) + 2))
    w := ops.lit 1 0 }

/-- Lines 50-52: `pos = projection * view * pos; pos = pos / pos.w`. -/
def ndc (id : Nat) : Vec4 α :=
  let pos := splatPos ops sc id
  let pos := Mat4.mulVec ops (Mat4.mul ops sc.projection sc.view) pos
  Vec4.divScalar ops pos pos.w

/-- Line 53: `float depth = pos.z`. -/
def depth (id : Nat) : α := (ndc ops sc id).z

/-- Line 56: `abs(pos.x) <= 1.f && abs(pos.y) <= 1.f && pos.z >= 0.f && pos.z <= 1.f`. -/
def frustumTest (pos : Vec4 α) : Bool :=
  ops.le (ops.abs pos.x) (ops.lit 1 0) && ops.le (ops.abs pos.y) (ops.lit 1 0) &&
    ops.le (ops.lit 0 0) pos.z && ops.le pos.z (ops.lit 1 0)

/-- Lines 57-63: `mat3 cov3d = mat3(v0, v0.y, v1.xy, v0.z, v1.yz)`. -/
def packedCov3d (v0 v1 : Vec3 α) : Mat3 α :=
  Mat3.ofComponents v0.x v0.y v0.z v0.y v1.x v1.y v0.z v1.y v1.z

/-- The layout the comment on lines 60-62 (and the specification) intends for the covariance,
row by row: `[[v0.x, v0.y, v0.z], [v0.y, v1.x, v1.y], [v0.z, v1.y, v1.z]]`. -/
def intendedCov3d (v0 v1 : Vec3 α) : List (List α) :=
  [[v0.x, v0.y, v0.z], [v0.y, v1.x, v1.y], [v0.z, v1.y, v1.z]]

/-- Lines 57-58: the two `vec3` halves of the packed covariance of splat `id`. -/
def covV0 (id : Nat) : Vec3 α :=
  { x := sc.gaussian_cov3d (u32 (u32 (id * 6) + 0))
    y := sc.gaussian_cov3d (u32 (u32 (id * 6) + 1))
    z := sc.gaussian_cov3d (u32 (u32 (id * 6) + 2)) }

/-- Line 58. -/
def covV1 (id : Nat) : Vec3 α :=
  { x := sc.gaussian_cov3d (u32 (u32 (id * 6) + 3))
    y := sc.gaussian_cov3d (u32 (u32 (id * 6) + 4))
    z := sc.gaussian_cov3d (u32 (u32 (id * 6) + 5)) }

/-- Lines 71-76: the matrix `J` at the view-space position `pos`, with `r = length(vec3(pos))`. -/
def jacobian (pos : Vec4 α) : Mat3 α :=
  let r := Vec3.length ops (Vec4.toVec3 pos)
  Mat3.ofComponents
    (ops.div (ops.neg (ops.lit 1 0)) pos.z) (ops.lit 0 0)
      (ops.div (ops.mul (ops.neg (ops.lit 2 0)) pos.x) r)
    (ops.lit 0 0) (ops.div (ops.neg (ops.lit 1 0)) pos.z)
      (ops.div (ops.mul (ops.neg (ops.lit 2 0)) pos.y) r)
    (ops.div (ops.div pos.x pos.z) pos.z) (ops.div (ops.div pos.y pos.z) pos.z)
      (ops.div (ops.mul (ops.neg (ops.lit 2 0)) pos.z) r)

/-- Lines 63-81, as a function of the camera, the world position and the packed covariance:
`cov2d = projection_scale * mat2(J * (view3d * cov3d * transpose(view3d)) * transpose(J))
  * projection_scale`. -/
def projectCov (projection view : Mat4 α) (wpos : Vec4 α) (v0 v1 : Vec3 α) : Mat2 α :=
  let cov3d := packedCov3d v0 v1
  let view3d := Mat4.toMat3 view
  let cov3d := Mat3.mul ops (Mat3.mul ops view3d cov3d) (Mat3.transpose view3d)
  let pos := Mat4.mulVec ops view wpos
  let J := jacobian ops pos
  let cov3d := Mat3.mul ops (Mat3.mul ops J cov3d) (Mat3.transpose J)
  let projection_scale := Mat4.toMat2 projection
  Mat2.mul ops (Mat2.mul ops projection_scale (Mat3.toMat2 cov3d)) projection_scale

/-- Lines 57-81 for splat `id`. -/
def cov2d (id : Nat) : Mat2 α :=
  projectCov ops sc.projection sc.view (splatPos ops sc id) (covV0 sc id) (covV1 sc id)

/-- Line 86: `D = sqrt((a - b) * (a - b) + 4.f * c * c)`. -/
def discriminant (a b c : α) : α :=
  ops.sqrt (ops.add (ops.mul (ops.sub a b) (ops.sub a b)) (ops.mul (ops.mul (ops.lit 4 0) c) c))

/-- Line 87: the argument of the square root of `s0`, `0.5f * (a + b + D)`. -/
def lambda0 (a b c : α) : α :=
  ops.mul (ops.lit 5 1) (ops.add (ops.add a b) (discriminant ops a b c))

/-- Line 88: the argument of the square root of `s1`, `0.5f * (a + b - D)`. -/
def lambda1 (a b c : α) : α :=
  ops.mul (ops.lit 5 1) (ops.sub (ops.add a b) (discriminant ops a b c))

/-- Lines 83-88: the eigen-radii `(s0, s1)` of a 2x2 covariance. -/
def eigenRadii (m : Mat2 α) : α × α :=
  let a := m.c0.x
  let b := m.c1.y
  let c := m.c1.x
  (ops.sqrt (lambda0 ops a b c), ops.sqrt (lambda1 ops a b c))

/-- Lines 91-92: `s0 >= size_threshold && s1 >= size_threshold` with `size_threshold = 0.0001f`. -/
def sizeTest (s : α × α) : Bool :=
  let size_threshold := ops.lit 1 4
  ops.le size_threshold s.1 && ops.le size_threshold s.2

/-- The value written to `key[]` on line 94: `floatBitsToUint(1.f - depth)`. -/
def sortKey (id : Nat) : Nat :=
  ops.floatBitsToUint (ops.sub (ops.lit 1 0) (depth ops sc id))

/-- The shader entry point `main` (lines 46-98) for the invocation with
`gl_GlobalInvocationID.x = id`, as a transformer of the output bindings.  `atomicAdd` returns the
old counter and stores the sum modulo `2 ^ 32`. -/
def main (id : Nat) (out : Output) : Output :=
  if id ≥ sc.point_count then out
  else
    let pos := ndc ops sc id
    let depth := pos.z
    if frustumTest ops pos then
      let s := eigenRadii ops (cov2d ops sc id)
      if sizeTest ops s then
        let instance_index := out.instanceCount
        let out := { out with instanceCount := u32 (out.instanceCount + 1) }
        let out := { out with key := Function.update out.key instance_index
                                (ops.floatBitsToUint (ops.sub (ops.lit 1 0) depth)) }
        { out with index := Function.update out.index instance_index id }
      else out
    else out

/-- One pass: the invocations run one after another in the order given by `order`. -/
def runPass (order : List Nat) (out : Output) : Output :=
  order.foldl (fun o id => main ops sc id o) out

/-- The two tests of lines 56 and 92 for splat `id`: the frustum test on its projected centre
and the size test on its eigen-radii. -/
def passesBoth (id : Nat) : Bool :=
  frustumTest ops (ndc ops sc id) && sizeTest ops (eigenRadii ops (cov2d ops sc id))

/-- Whether invocation `id` reaches the emission on lines 93-95: it passes the bound check of
line 48, the frustum test of line 56 and the size test of line 92. -/
def emits (id : Nat) : Bool :=
  decide (id < sc.point_count) && passesBoth ops sc id

/-- The ids of `order` that emit, in execution order. -/
def emitted (order : List Nat) : List Nat := order.filter (emits ops sc)

/-- The slots written by lines 94-95 (to `key[]` and to `index[]`) while the invocations of
`order` run, in the order of the writes: an emitting invocation writes the slot it was granted
by `atomicAdd`, the other invocations write nothing. -/
def writtenSlots : List Nat → Output → List Nat
  | [], _ => []
  | id :: rest, out =>
    (if emits ops sc id then [out.instanceCount] else [])
      ++ writtenSlots rest (main ops sc id out)

/-- The `(key, index)` pairs stored in the slots `[0, instanceCount)`. -/
def visiblePairs (out : Output) : List (Nat × Nat) :=
  (List.range out.instanceCount).map (fun s => (out.key s, out.index s))

end Shader

/-! ## Invocations interleaved at their memory operations -/

/-- Where an invocation stands: before the `atomicAdd` of line 93 (`ready`), after it and before
the store of line 94, holding the slot it was granted (`granted`), between the stores of lines 94
and 95 (`keyStored`), or returned (`done`). -/
inductive Phase where
  | ready
  | granted (slot : Nat)
  | keyStored (slot : Nat)
  | done
deriving DecidableEq, Repr

/-- The output bindings together with the phase of every invocation. -/
structure Machine where
  out : Output
  phase : Nat → Phase

/-- The machine before any invocation has taken a step. -/
def Machine.init (out : Output) : Machine := ⟨out, fun _ => Phase.ready⟩

section Interleaving

variable {α : Type} (ops : FloatOps α) (sc : Scene α)

/-- One step of invocation `id`: `main` cut at its three writes.  From `ready` the invocation
evaluates the tests of lines 48, 56 and 92 (reads of read-only bindings) and either returns or
performs the `atomicAdd` of line 93; from `granted` it stores the key (line 94); from `keyStored`
it stores the index (line 95) and returns. -/
def stepThread (id : Nat) (m : Machine) : Machine :=
  match m.phase id with
  | .ready =>
    if emits ops sc id then
      { out := { m.out with instanceCount := u32 (m.out.instanceCount + 1) }
        phase := Function.update m.phase id (.granted m.out.instanceCount) }
    else { m with phase := Function.update m.phase id .done }
  | .granted s =>
    { out := { m.out with key := Function.update m.out.key s (sortKey ops sc id) }
      phase := Function.update m.phase id (.keyStored s) }
  | .keyStored s =>
    { out := { m.out with index := Function.update m.out.index s id }
      phase := Function.update m.phase id .done }
  | .done => m

/-- An interleaved execution: the schedule names, step by step, the invocation that moves. -/
def runSchedule (sched : List Nat) (m : Machine) : Machine :=
  sched.foldl (fun m id => stepThread ops sc id m) m

/-- Record that `id` has taken a step. -/
def noteStep (seen : List Nat) (id : Nat) : List Nat :=
  if id ∈ seen then seen else seen ++ [id]

/-- The ids of a schedule in the order of their first steps. -/
def firstSteps (sched : List Nat) : List Nat := sched.foldl noteStep []

/-- The relation between an interleaved execution and the sequential pass over the invocations
that have started, in the order of their first steps: the counters agree; an invocation between
its `atomicAdd` and its return holds a slot below the counter which the sequential pass has filled
with its key and id; and every slot without a pending store agrees. -/
structure Inv (out0 : Output) (seen : List Nat) (m : Machine) : Prop where
  nodup : seen.Nodup
  ready_iff : ∀ id, m.phase id = .ready ↔ id ∉ seen
  count : m.out.instanceCount = (runPass ops sc seen out0).instanceCount
  fields : m.out.indexCount = out0.indexCount ∧ m.out.firstIndex = out0.firstIndex ∧
    m.out.vertexOffset = out0.vertexOffset ∧ m.out.firstInstance = out0.firstInstance
  pending : ∀ id s, (m.phase id = .granted s ∨ m.phase id = .keyStored s) →
    s < (runPass ops sc seen out0).instanceCount ∧
    (runPass ops sc seen out0).index s = id ∧
    (runPass ops sc seen out0).key s = sortKey ops sc id
  key_ok : ∀ s, (∀ id, m.phase id ≠ .granted s) →
    m.out.key s = (runPass ops sc seen out0).key s
  index_ok : ∀ s, (∀ id, m.phase id ≠ .granted s ∧ m.phase id ≠ .keyStored s) →
    m.out.index s = (runPass ops sc seen out0).index s

end Interleaving

/-- The arithmetic of a field as a `FloatOps`, given the three operations a field does not
supply; `floatBitsToUint` has no meaning here and is constant. -/
def fieldOps {K : Type} [Field K] (sqrt : K → K) (abs : K → K) (le : K → K → Bool) :
    FloatOps K :=
  { add := fun a b => a + b
    sub := fun a b => a - b
    mul := fun a b => a * b
    div := fun a b => a / b
    neg := fun a => -a
    sqrt := sqrt
    abs := abs
    le := le
    lit := fun m e => (m : K) / 10 ^ e
    floatBitsToUint := fun _ => 0 }

/-- The 4x4 identity matrix. -/
def Mat4.identity {K : Type} [Zero K] [One K] : Mat4 K :=
  { c0 := ⟨1, 0, 0, 0⟩
    c1 := ⟨0, 1, 0, 0⟩
    c2 := ⟨0, 0, 1, 0⟩
    c3 := ⟨0, 0, 0, 1⟩ }

/-! ## `graphics_pipeline.cc` -/

/-- The null handle `VK_NULL_HANDLE`. -/
def VK_NULL_HANDLE : Nat := 0

/-- The two stage flags `CreateShaderModule` is called with. -/
inductive VkShaderStageFlagBits where
  | VK_SHADER_STAGE_VERTEX_BIT
  | VK_SHADER_STAGE_FRAGMENT_BIT
deriving DecidableEq, Repr

/-- The shaderc kinds selected by the `switch` on lines 15-23. -/
inductive shaderc_shader_kind where
  | shaderc_glsl_vertex_shader
  | shaderc_glsl_fragment_shader
deriving DecidableEq, Repr

/-- What the code reads of a `shaderc::SpvCompilationResult`: whether `GetCompilationStatus()`
is `shaderc_compilation_status_success`, `GetErrorMessage()`, and the words `cbegin() .. cend()`. -/
structure SpvCompilationResult where
  success : Bool
  errorMessage : String
  code : List Nat
deriving DecidableEq, Repr

/-- The fields of `VkPipelineShaderStageCreateInfo` set on lines 64-73. -/
structure VkPipelineShaderStageCreateInfo where
  stage : VkShaderStageFlagBits
  module : Nat
  pName : String
deriving DecidableEq, Repr

/-- The input-dependent fields of `VkGraphicsPipelineCreateInfo` (lines 163-176): the two stages
and the layout.  The fixed-function state of lines 75-161 is the same constant in every call. -/
structure VkGraphicsPipelineCreateInfo where
  stages : List VkPipelineShaderStageCreateInfo
  layout : Nat
deriving DecidableEq, Repr

/-- The collaborators outside the repository: the shaderc compiler and the Vulkan driver.
`vkCreateShaderModule` and `vkCreateGraphicsPipelines` give the handle they store through their
last argument. -/
structure Externals where
  CompileGlslToSpv : String → shaderc_shader_kind → SpvCompilationResult
  vkCreateShaderModule : Nat → List Nat → Nat
  vkCreateGraphicsPipelines : Nat → VkGraphicsPipelineCreateInfo → Nat

/-- Modelled from the spec: `graphics_pipeline.h` is not among the sources; construction takes
the vertex-shader source text, the fragment-shader source text and a pipeline layout handle,
the three fields the constructor reads. -/
structure GraphicsPipelineCreateInfo where
  layout : Nat
  vertex_shader : String
  fragment_shader : String
deriving DecidableEq, Repr

/-- Lines 12-47, `CreateShaderModule`, with the text written to `std::cerr` threaded through:
returns the module handle and the new contents of `std::cerr`. -/
def CreateShaderModule (ext : Externals) (device : Nat) (stage : VkShaderStageFlagBits)
    (source : String) (cerr : List String) : Nat × List String :=
  let kind := match stage with
    | .VK_SHADER_STAGE_VERTEX_BIT => shaderc_shader_kind.shaderc_glsl_vertex_shader
    | .VK_SHADER_STAGE_FRAGMENT_BIT => shaderc_shader_kind.shaderc_glsl_fragment_shader
  let module := ext.CompileGlslToSpv source kind
  if module.success = false then (VK_NULL_HANDLE, cerr ++ [module.errorMessage])
  else (ext.vkCreateShaderModule device module.code, cerr)

/-- The members of `GraphicsPipeline::Impl`: `context_` (its device) and `pipeline_`. -/
structure Impl where
  context_ : Nat
  pipeline_ : Nat
deriving DecidableEq, Repr

/-- Lines 59-176: the create info the constructor passes to `vkCreateGraphicsPipelines`, and the
contents of `std::cerr` after the two compilations. -/
def pipelineInfo (ext : Externals) (device : Nat) (create_info : GraphicsPipelineCreateInfo)
    (cerr : List String) : VkGraphicsPipelineCreateInfo × List String :=
  let vertex := CreateShaderModule ext device .VK_SHADER_STAGE_VERTEX_BIT
    create_info.vertex_shader cerr
  let fragment := CreateShaderModule ext device .VK_SHADER_STAGE_FRAGMENT_BIT
    create_info.fragment_shader vertex.2
  ({ stages := [⟨.VK_SHADER_STAGE_VERTEX_BIT, vertex.1, "main"⟩,
                ⟨.VK_SHADER_STAGE_FRAGMENT_BIT, fragment.1, "main"⟩]
     layout := create_info.layout }, fragment.2)

/-- Lines 55-182, the constructor `GraphicsPipeline::Impl::Impl`: `pipeline_` starts as
`VK_NULL_HANDLE` and is overwritten by `vkCreateGraphicsPipelines`; no result is checked. -/
def Impl.create (ext : Externals) (device : Nat) (create_info : GraphicsPipelineCreateInfo)
    (cerr : List String) : Impl × List String :=
  let info := pipelineInfo ext device create_info cerr
  ({ context_ := device, pipeline_ := ext.vkCreateGraphicsPipelines device info.1 }, info.2)

/-- The class `GraphicsPipeline`: a shared pointer to its `Impl`, empty after default
construction. -/
structure GraphicsPipeline where
  impl_ : Option Impl
deriving DecidableEq, Repr

/-- Lines 195-197, `GraphicsPipeline::GraphicsPipeline(context, create_info)`. -/
def GraphicsPipeline.create (ext : Externals) (device : Nat)
    (create_info : GraphicsPipelineCreateInfo) (cerr : List String) :
    GraphicsPipeline × List String :=
  let r := Impl.create ext device create_info cerr
  (⟨some r.1⟩, r.2)

/-- Line 201, `operator VkPipeline()`: the handle held by the implementation. -/
def GraphicsPipeline.handle (g : GraphicsPipeline) : Option Nat :=
  g.impl_.map (fun i => i.pipeline_)

/-! ## Concrete inputs -/

/-- The 4x4 identity in binary32. -/
def identity4 : Mat4 F32 :=
  { c0 := ⟨⟨0x3F800000⟩, ⟨0⟩, ⟨0⟩, ⟨0⟩⟩
    c1 := ⟨⟨0⟩, ⟨0x3F800000⟩, ⟨0⟩, ⟨0⟩⟩
    c2 := ⟨⟨0⟩, ⟨0⟩, ⟨0x3F800000⟩, ⟨0⟩⟩
    c3 := ⟨⟨0⟩, ⟨0⟩, ⟨0⟩, ⟨0x3F800000⟩⟩ }

/-- A buffer of floats given by the list of its bit patterns (zero beyond the end). -/
def bufferOf (l : List Nat) : Nat → F32 := fun i => ⟨l.getD i 0⟩

/-- Six splats under the identity camera.  Positions: `(0, 0, 2^-60)`, `(0, 0, 2^-50)`,
`(0, 0, 1)`, `(2, 0, 0.5)`, `(0, 0, 0.5)`, `(0, 0, 0.5)`; covariances: the identity for splats
0-3, `diag(1, 0, 1)` for splat 4 and `diag(1, -1, 1)` for splat 5. -/
def demoScene : Scene F32 :=
  { projection := identity4
    view := identity4
    point_count := 6
    gaussian_position := bufferOf
      [0, 0, 0x21800000,
       0, 0, 0x26800000,
       0, 0, 0x3F800000,
       0x40000000, 0, 0x3F000000,
       0, 0, 0x3F000000,
       0, 0, 0x3F000000]
    gaussian_cov3d := bufferOf
      [0x3F800000, 0, 0, 0x3F800000, 0, 0x3F800000,
       0x3F800000, 0, 0, 0x3F800000, 0, 0x3F800000,
       0x3F800000, 0, 0, 0x3F800000, 0, 0x3F800000,
       0x3F800000, 0, 0, 0x3F800000, 0, 0x3F800000,
       0x3F800000, 0, 0, 0, 0, 0x3F800000,
       0x3F800000, 0, 0, 0xBF800000, 0, 0x3F800000] }

/-- Output bindings cleared to zero. -/
def clearedOutput : Output :=
  { indexCount := 0, instanceCount := 0, firstIndex := 0, vertexOffset := 0, firstInstance := 0
    key := fun _ => 0, index := fun _ => 0 }

end pygs

/-! # Theorems -/

namespace pygs

/-! ## One invocation of `main` -/

section Pass

variable {α : Type} (ops : FloatOps α) (sc : Scene α)

theorem emits_lt {id : Nat} (h : emits ops sc id = true) : id < sc.point_count := by
  simp only [emits, Bool.and_eq_true, decide_eq_true_eq] at h
  exact h.1

theorem emits_of_lt {id : Nat} (h : id < sc.point_count) :
    emits ops sc id = passesBoth ops sc id := by
  simp [emits, h]

theorem emits_iff (id : Nat) :
    emits ops sc id = true ↔
      (id < sc.point_count ∧ frustumTest ops (ndc ops sc id) = true ∧
        sizeTest ops (eigenRadii ops (cov2d ops sc id)) = true) := by
  simp [emits, passesBoth]

theorem frustumTest_iff (pos : Vec4 α) :
    frustumTest ops pos = true ↔
      (ops.le (ops.abs pos.x) (ops.lit 1 0) = true ∧
        ops.le (ops.abs pos.y) (ops.lit 1 0) = true ∧
        ops.le (ops.lit 0 0) pos.z = true ∧
        ops.le pos.z (ops.lit 1 0) = true) := by
  simp only [frustumTest, Bool.and_eq_true, and_assoc]

theorem sizeTest_iff (s : α × α) :
    sizeTest ops s = true ↔
      (ops.le (ops.lit 1 4) s.1 = true ∧ ops.le (ops.lit 1 4) s.2 = true) := by
  simp only [sizeTest, Bool.and_eq_true]

/-- An invocation that passes the three tests bumps the counter and writes its slot. -/
theorem main_of_emits {id : Nat} (out : Output) (h : emits ops sc id = true) :
    main ops sc id out =
      { out with
        instanceCount := u32 (out.instanceCount + 1)
        key := Function.update out.key out.instanceCount (sortKey ops sc id)
        index := Function.update out.index out.instanceCount id } := by
  simp only [emits, passesBoth, Bool.and_eq_true, decide_eq_true_eq] at h
  obtain ⟨h1, h2, h3⟩ := h
  simp [main, Nat.not_le.mpr h1, h2, h3, sortKey, depth]

/-- An invocation that fails one of the three tests changes nothing. -/
theorem main_of_not_emits {id : Nat} (out : Output) (h : emits ops sc id = false) :
    main ops sc id out = out := by
  unfold main
  by_cases h1 : id ≥ sc.point_count
  · simp [h1]
  · by_cases h2 : frustumTest ops (ndc ops sc id) = true
    · by_cases h3 : sizeTest ops (eigenRadii ops (cov2d ops sc id)) = true
      · have : emits ops sc id = true := by
          simp [emits, passesBoth, Nat.lt_of_not_le h1, h2, h3]
        rw [this] at h; cases h
      · simp [h1, h2, h3]
    · simp [h1, h2]

/-! ## The emitting ids of a dispatch -/

theorem emitted_perm {l₁ l₂ : List Nat} (h : l₁.Perm l₂) :
    (emitted ops sc l₁).Perm (emitted ops sc l₂) :=
  h.filter _

theorem emitted_range {n : Nat} (h : sc.point_count ≤ n) :
    emitted ops sc (List.range n) = (List.range sc.point_count).filter (passesBoth ops sc) := by
  obtain ⟨d, rfl⟩ := Nat.exists_eq_add_of_le h
  have hsplit : List.range (sc.point_count + d)
      = List.range sc.point_count ++ List.range' sc.point_count d := by
    rw [List.range_eq_range', List.range_eq_range']
    have := List.range'_append 0 sc.point_count d 1
    rw [Nat.add_comm d] at this
    simpa using this.symm
  rw [emitted, hsplit, List.filter_append]
  have h2 : (List.range' sc.point_count d).filter (emits ops sc) = [] := by
    rw [List.filter_eq_nil_iff]
    intro a ha he
    have := emits_lt ops sc he
    rw [List.mem_range'_1] at ha
    omega
  rw [h2, List.append_nil]
  apply List.filter_congr
  intro x hx
  exact emits_of_lt ops sc (List.mem_range.mp hx)

theorem emitted_length_le {order : List Nat} {n : Nat} (hperm : order.Perm (List.range n))
    (h : sc.point_count ≤ n) : (emitted ops sc order).length ≤ sc.point_count := by
  rw [(emitted_perm ops sc hperm).length_eq, emitted_range ops sc h]
  exact (List.length_filter_le _ _).trans (by simp)

theorem emitted_nodup {order : List Nat} {n : Nat} (hperm : order.Perm (List.range n)) :
    (emitted ops sc order).Nodup :=
  ((hperm.nodup_iff).mpr (List.nodup_range n)).filter _

/-! ## A whole pass -/

theorem runPass_nil (out : Output) : runPass ops sc [] out = out := rfl

theorem runPass_cons (id : Nat) (rest : List Nat) (out : Output) :
    runPass ops sc (id :: rest) out = runPass ops sc rest (main ops sc id out) := rfl

/-- State of the output after a sequential run that does not wrap the counter: the counter has
advanced by the number of emitting ids, the `j`-th of them sits `j` slots above the old counter,
the slots below the old counter are untouched, and the slots written are consecutive. -/
theorem runPass_spec (order : List Nat) :
    ∀ out : Output, out.instanceCount + (emitted ops sc order).length < 2 ^ 32 →
      (runPass ops sc order out).instanceCount
          = out.instanceCount + (emitted ops sc order).length ∧
      (∀ j (hj : j < (emitted ops sc order).length),
        (runPass ops sc order out).index (out.instanceCount + j) = (emitted ops sc order)[j] ∧
        (runPass ops sc order out).key (out.instanceCount + j)
          = sortKey ops sc (emitted ops sc order)[j]) ∧
      (∀ s, s < out.instanceCount →
        (runPass ops sc order out).index s = out.index s ∧
        (runPass ops sc order out).key s = out.key s) ∧
      writtenSlots ops sc order out
          = List.range' out.instanceCount (emitted ops sc order).length := by
  induction order with
  | nil =>
    intro out _
    simp [emitted, runPass_nil, writtenSlots]
  | cons id rest ih =>
    intro out hb
    rw [runPass_cons]
    by_cases he : emits ops sc id = true
    · have hem : emitted ops sc (id :: rest) = id :: emitted ops sc rest := by
        simp [emitted, he]
      rw [hem] at hb ⊢
      simp only [List.length_cons] at hb ⊢
      have hm := main_of_emits ops sc out he
      have hic : (main ops sc id out).instanceCount = out.instanceCount + 1 := by
        rw [hm]; simp only [u32]; exact Nat.mod_eq_of_lt (by omega)
      have hidx : (main ops sc id out).index = Function.update out.index out.instanceCount id := by
        rw [hm]
      have hkey : (main ops sc id out).key
          = Function.update out.key out.instanceCount (sortKey ops sc id) := by
        rw [hm]
      obtain ⟨i1, i2, i3, i4⟩ := ih (main ops sc id out) (by rw [hic]; omega)
      rw [hic] at i1 i2 i3 i4
      refine ⟨by rw [i1]; omega, ?_, ?_, ?_⟩
      · intro j hj
        cases j with
        | zero =>
          have := i3 out.instanceCount (by omega)
          simp [this.1, this.2, hidx, hkey]
        | succ j =>
          have := i2 j (by simpa using hj)
          have e : out.instanceCount + (j + 1) = out.instanceCount + 1 + j := by omega
          simpa [e] using this
      · intro s hs
        have := i3 s (by omega)
        rw [this.1, this.2, hidx, hkey]
        simp [Function.update, Nat.ne_of_lt hs]
      · simp only [writtenSlots, he, if_true, i4]
        simp [List.range'_succ]
    · have he' : emits ops sc id = false := by simpa using he
      have hem : emitted ops sc (id :: rest) = emitted ops sc rest := by
        simp [emitted, he']
      rw [hem] at hb ⊢
      rw [main_of_not_emits ops sc out he']
      obtain ⟨i1, i2, i3, i4⟩ := ih out hb
      refine ⟨i1, i2, i3, ?_⟩
      simp [writtenSlots, he', main_of_not_emits ops sc out he', i4]

/-- After a pass over a permutation of the dispatched ids, started with a zero counter: the
counter is the number of emitting ids and slot `j` holds the `j`-th emitting id and its key. -/
theorem runPass_from_zero {order : List Nat} {n : Nat} (out : Output)
    (hpc : sc.point_count < 2 ^ 32) (hd : sc.point_count ≤ n)
    (hperm : order.Perm (List.range n)) (h0 : out.instanceCount = 0) :
    (runPass ops sc order out).instanceCount = (emitted ops sc order).length ∧
    (∀ j (hj : j < (emitted ops sc order).length),
      (runPass ops sc order out).index j = (emitted ops sc order)[j] ∧
      (runPass ops sc order out).key j = sortKey ops sc (emitted ops sc order)[j]) ∧
    writtenSlots ops sc order out = List.range (emitted ops sc order).length := by
  have hlen := emitted_length_le ops sc hperm hd
  obtain ⟨i1, i2, -, i4⟩ := runPass_spec ops sc order out (by rw [h0]; omega)
  rw [h0] at i1 i2 i4
  refine ⟨by simpa using i1, ?_, ?_⟩
  · intro j hj
    simpa using i2 j hj
  · rw [i4, List.range_eq_range']

theorem visiblePairs_eq {order : List Nat} {n : Nat} (out : Output)
    (hpc : sc.point_count < 2 ^ 32) (hd : sc.point_count ≤ n)
    (hperm : order.Perm (List.range n)) (h0 : out.instanceCount = 0) :
    visiblePairs (runPass ops sc order out)
      = (emitted ops sc order).map (fun id => (sortKey ops sc id, id)) := by
  obtain ⟨i1, i2, -⟩ := runPass_from_zero ops sc out hpc hd hperm h0
  apply List.ext_getElem
  · simp [visiblePairs, i1]
  · intro j h1 h2
    have hj : j < (emitted ops sc order).length := by simpa using h2
    simp [visiblePairs, (i2 j hj).1, (i2 j hj).2]

theorem mem_index_iff {order : List Nat} {n : Nat} (out : Output)
    (hpc : sc.point_count < 2 ^ 32) (hd : sc.point_count ≤ n)
    (hperm : order.Perm (List.range n)) (h0 : out.instanceCount = 0) (id : Nat) :
    (∃ s, s < (runPass ops sc order out).instanceCount ∧ (runPass ops sc order out).index s = id)
      ↔ emits ops sc id = true := by
  obtain ⟨i1, i2, -⟩ := runPass_from_zero ops sc out hpc hd hperm h0
  rw [i1]
  constructor
  · rintro ⟨s, hs, rfl⟩
    rw [(i2 s hs).1]
    have hmem : (emitted ops sc order)[s] ∈ emitted ops sc order := List.getElem_mem _
    exact (List.mem_filter.mp hmem).2
  · intro he
    have hmem : id ∈ emitted ops sc order := by
      refine List.mem_filter.mpr ⟨?_, he⟩
      exact hperm.mem_iff.mpr (List.mem_range.mpr (lt_of_lt_of_le (emits_lt ops sc he) hd))
    obtain ⟨s, hs, hsid⟩ := List.getElem_of_mem hmem
    exact ⟨s, hs, by rw [(i2 s hs).1, hsid]⟩

/-- C1: exact count.  If the counter is zero before the pass and the invocations of the
dispatched ids `[0, dispatched)`, `point_count <= dispatched`, run in any order, then afterwards
`instanceCount` is exactly the number of ids below `point_count` that pass the frustum test and
the eigen-radius test; when every splat passes both, `instanceCount = point_count`. -/
theorem order_pass_exact_count (dispatched : Nat) (order : List Nat) (out : Output)
    (hpc : sc.point_count < 2 ^ 32) (hd : sc.point_count ≤ dispatched)
    (hperm : order.Perm (List.range dispatched)) (h0 : out.instanceCount = 0) :
    (runPass ops sc order out).instanceCount
        = ((List.range sc.point_count).filter (fun id =>
            frustumTest ops (ndc ops sc id) &&
              sizeTest ops (eigenRadii ops (cov2d ops sc id)))).length ∧
    ((∀ id, id < sc.point_count →
        frustumTest ops (ndc ops sc id) = true ∧
          sizeTest ops (eigenRadii ops (cov2d ops sc id)) = true) →
      (runPass ops sc order out).instanceCount = sc.point_count) := by
  obtain ⟨i1, -, -⟩ := runPass_from_zero ops sc out hpc hd hperm h0
  have hcount : (runPass ops sc order out).instanceCount
      = ((List.range sc.point_count).filter (passesBoth ops sc)).length := by
    rw [i1, (emitted_perm ops sc hperm).length_eq, emitted_range ops sc hd]
  refine ⟨hcount, ?_⟩
  intro hall
  rw [hcount]
  have : (List.range sc.point_count).filter (passesBoth ops sc) = List.range sc.point_count := by
    rw [List.filter_eq_self]
    intro a ha
    have := hall a (List.mem_range.mp ha)
    simp [passesBoth, this.1, this.2]
  rw [this, List.length_range]

/-- C2: visible set.  After a pass started with a zero counter, an id occurs in
`index[0 .. instanceCount)` if and only if it is below `point_count`, its projected centre passes
the inclusive frustum test and both eigen-radii are at least `size_threshold`.  Hence: an id whose
centre fails the frustum test never occurs; an id with `ndc.z` equal to `1.f` that passes the
other tests occurs (given `1.f <= 1.f`); an id with `s1 >= size_threshold` false never occurs, in
particular when the square root of `s1` is taken of a value that is not `>= 0` (given that such a
square root is never `>= size_threshold`). -/
theorem order_pass_visible_set (dispatched : Nat) (order : List Nat) (out : Output)
    (hpc : sc.point_count < 2 ^ 32) (hd : sc.point_count ≤ dispatched)
    (hperm : order.Perm (List.range dispatched)) (h0 : out.instanceCount = 0) :
    (∀ id, (∃ s, s < (runPass ops sc order out).instanceCount ∧
              (runPass ops sc order out).index s = id) ↔
        (id < sc.point_count ∧
          (ops.le (ops.abs (ndc ops sc id).x) (ops.lit 1 0) = true ∧
            ops.le (ops.abs (ndc ops sc id).y) (ops.lit 1 0) = true ∧
            ops.le (ops.lit 0 0) (ndc ops sc id).z = true ∧
            ops.le (ndc ops sc id).z (ops.lit 1 0) = true) ∧
          (ops.le (ops.lit 1 4) (eigenRadii ops (cov2d ops sc id)).1 = true ∧
            ops.le (ops.lit 1 4) (eigenRadii ops (cov2d ops sc id)).2 = true))) ∧
    (∀ id, frustumTest ops (ndc ops sc id) = false →
      ¬ ∃ s, s < (runPass ops sc order out).instanceCount ∧
          (runPass ops sc order out).index s = id) ∧
    (∀ id, id < sc.point_count → ops.le (ops.lit 1 0) (ops.lit 1 0) = true →
      (ndc ops sc id).z = ops.lit 1 0 →
      ops.le (ops.abs (ndc ops sc id).x) (ops.lit 1 0) = true →
      ops.le (ops.abs (ndc ops sc id).y) (ops.lit 1 0) = true →
      ops.le (ops.lit 0 0) (ndc ops sc id).z = true →
      sizeTest ops (eigenRadii ops (cov2d ops sc id)) = true →
      ∃ s, s < (runPass ops sc order out).instanceCount ∧
          (runPass ops sc order out).index s = id) ∧
    (∀ id, ops.le (ops.lit 1 4) (eigenRadii ops (cov2d ops sc id)).2 = false →
      ¬ ∃ s, s < (runPass ops sc order out).instanceCount ∧
          (runPass ops sc order out).index s = id) ∧
    ((∀ x, ops.le (ops.lit 0 0) x = false → ops.le (ops.lit 1 4) (ops.sqrt x) = false) →
      ∀ id, ops.le (ops.lit 0 0)
          (lambda1 ops (cov2d ops sc id).c0.x (cov2d ops sc id).c1.y (cov2d ops sc id).c1.x)
            = false →
        ¬ ∃ s, s < (runPass ops sc order out).instanceCount ∧
            (runPass ops sc order out).index s = id) := by
  have key := mem_index_iff ops sc out hpc hd hperm h0
  have hs1 : ∀ id, ops.le (ops.lit 1 4) (eigenRadii ops (cov2d ops sc id)).2 = false →
      ¬ ∃ s, s < (runPass ops sc order out).instanceCount ∧
          (runPass ops sc order out).index s = id := by
    intro id hf hex
    have := ((emits_iff ops sc id).mp ((key id).mp hex)).2.2
    simp [sizeTest, hf] at this
  refine ⟨?_, ?_, ?_, hs1, ?_⟩
  · intro id
    rw [key id, emits_iff]
    simp only [frustumTest, sizeTest, Bool.and_eq_true, and_assoc]
  · intro id hf hex
    have := ((emits_iff ops sc id).mp ((key id).mp hex)).2.1
    rw [hf] at this; cases this
  · intro id hid hrefl hz hx hy h0z hsz
    apply (key id).mpr
    rw [emits_iff]
    refine ⟨hid, ?_, hsz⟩
    simp only [frustumTest, Bool.and_eq_true]
    exact ⟨⟨⟨hx, hy⟩, h0z⟩, by rw [hz]; exact hrefl⟩
  · intro hsqrt id hneg
    exact hs1 id (hsqrt _ hneg)

/-- C3: output slots.  After a pass started with a zero counter, in any order of the
invocations: every slot below `instanceCount` has been written exactly once and no other slot
has been written, every `index[s]` with `s < instanceCount` is below `point_count`, these values
are pairwise distinct, and `instanceCount <= point_count`. -/
theorem order_pass_slots (dispatched : Nat) (order : List Nat) (out : Output)
    (hpc : sc.point_count < 2 ^ 32) (hd : sc.point_count ≤ dispatched)
    (hperm : order.Perm (List.range dispatched)) (h0 : out.instanceCount = 0) :
    (∀ s, s < (runPass ops sc order out).instanceCount →
      (writtenSlots ops sc order out).count s = 1) ∧
    (∀ s, s ∈ writtenSlots ops sc order out → s < (runPass ops sc order out).instanceCount) ∧
    (∀ s, s < (runPass ops sc order out).instanceCount →
      (runPass ops sc order out).index s < sc.point_count) ∧
    (∀ s t, s < (runPass ops sc order out).instanceCount →
      t < (runPass ops sc order out).instanceCount →
      (runPass ops sc order out).index s = (runPass ops sc order out).index t → s = t) ∧
    (runPass ops sc order out).instanceCount ≤ sc.point_count := by
  obtain ⟨i1, i2, i3⟩ := runPass_from_zero ops sc out hpc hd hperm h0
  have hnd := emitted_nodup ops sc hperm
  rw [i1, i3]
  refine ⟨?_, ?_, ?_, ?_, emitted_length_le ops sc hperm hd⟩
  · intro s hs
    exact List.count_eq_one_of_mem (List.nodup_range _) (List.mem_range.mpr hs)
  · intro s hs
    exact List.mem_range.mp hs
  · intro s hs
    rw [(i2 s hs).1]
    have hmem : (emitted ops sc order)[s] ∈ emitted ops sc order := List.getElem_mem _
    exact emits_lt ops sc (List.mem_filter.mp hmem).2
  · intro s t hs ht hst
    rw [(i2 s hs).1, (i2 t ht).1] at hst
    exact (List.Nodup.getElem_inj_iff hnd).mp hst

/-- C5: order independence.  For one scene and two execution orders of the dispatched ids, both
started with a zero counter, the final `instanceCount` is the same and the `(key, splatIndex)`
pairs stored in the slots `[0, instanceCount)` are the same up to their assignment to slots: the
two lists of pairs are permutations of each other, so they have the same members. -/
theorem order_pass_order_independent (dispatched : Nat) (order₁ order₂ : List Nat)
    (out₁ out₂ : Output)
    (hpc : sc.point_count < 2 ^ 32) (hd : sc.point_count ≤ dispatched)
    (hperm₁ : order₁.Perm (List.range dispatched))
    (hperm₂ : order₂.Perm (List.range dispatched))
    (h₁ : out₁.instanceCount = 0) (h₂ : out₂.instanceCount = 0) :
    (runPass ops sc order₁ out₁).instanceCount = (runPass ops sc order₂ out₂).instanceCount ∧
    (visiblePairs (runPass ops sc order₁ out₁)).Perm (visiblePairs (runPass ops sc order₂ out₂)) ∧
    (∀ p, p ∈ visiblePairs (runPass ops sc order₁ out₁) ↔
      p ∈ visiblePairs (runPass ops sc order₂ out₂)) := by
  have hp : (emitted ops sc order₁).Perm (emitted ops sc order₂) :=
    emitted_perm ops sc (hperm₁.trans hperm₂.symm)
  have hv : (visiblePairs (runPass ops sc order₁ out₁)).Perm
      (visiblePairs (runPass ops sc order₂ out₂)) := by
    rw [visiblePairs_eq ops sc out₁ hpc hd hperm₁ h₁, visiblePairs_eq ops sc out₂ hpc hd hperm₂ h₂]
    exact hp.map _
  refine ⟨?_, hv, fun p => hv.mem_iff⟩
  rw [(runPass_from_zero ops sc out₁ hpc hd hperm₁ h₁).1,
    (runPass_from_zero ops sc out₂ hpc hd hperm₂ h₂).1]
  exact hp.length_eq

/-- C9: covariance reconstruction.  The constructor call `mat3(v0, v0.y, v1.xy, v0.z, v1.yz)`
supplies exactly nine components and builds the matrix the shader uses; read row by row that
matrix is the intended layout `[[v0.x, v0.y, v0.z], [v0.y, v1.x, v1.y], [v0.z, v1.y, v1.z]]`, and
it is symmetric (equal to its transpose). -/
theorem packedCov3d_layout (v0 v1 : Vec3 α) :
    mat3Ctor [CtorArg.vec3 v0, CtorArg.scalar v0.y, CtorArg.vec2 v1.xy, CtorArg.scalar v0.z,
        CtorArg.vec2 v1.yz] = some (packedCov3d v0 v1) ∧
    (packedCov3d v0 v1).rows = intendedCov3d v0 v1 ∧
    (packedCov3d v0 v1).IsSymm ∧
    (packedCov3d v0 v1).transpose = packedCov3d v0 v1 := by
  refine ⟨rfl, rfl, ⟨rfl, rfl, rfl⟩, rfl⟩

end Pass

end pygs

namespace pygs

/-! ## Binary32: rounding is monotone -/

namespace F32

theorem ilog2_spec : ∀ (fuel n : Nat), 0 < n → n < 2 ^ fuel →
    2 ^ ilog2 fuel n ≤ n ∧ n < 2 ^ (ilog2 fuel n + 1) := by
  intro fuel
  induction fuel with
  | zero => intro n h0 h1; simp at h1; omega
  | succ f ih =>
    intro n h0 h1
    unfold ilog2
    by_cases h2 : n < 2
    · simp only [h2, if_true]
      have : n = 1 := by omega
      subst this
      simp
    · simp only [h2, if_false]
      have h3 : 0 < n / 2 := by omega
      have h4 : n / 2 < 2 ^ f := by
        rw [pow_succ] at h1
        omega
      obtain ⟨a, b⟩ := ih (n / 2) h3 h4
      rw [pow_succ, pow_succ]
      rw [pow_succ] at b
      constructor <;> omega

theorem ilog2_zero (fuel : Nat) : ilog2 fuel 0 = 0 := by
  cases fuel <;> simp [ilog2]

theorem ilog2_mono {fuel a b : Nat} (h : a ≤ b) (hb : b < 2 ^ fuel) :
    ilog2 fuel a ≤ ilog2 fuel b := by
  rcases Nat.eq_zero_or_pos a with rfl | ha
  · rw [ilog2_zero]; exact Nat.zero_le _
  · obtain ⟨a1, -⟩ := ilog2_spec fuel a ha (lt_of_le_of_lt h hb)
    obtain ⟨-, b2⟩ := ilog2_spec fuel b (lt_of_lt_of_le ha h) hb
    by_contra hc
    have h1 : ilog2 fuel b + 1 ≤ ilog2 fuel a := by omega
    have h2 : 2 ^ (ilog2 fuel b + 1) ≤ 2 ^ ilog2 fuel a := Nat.pow_le_pow_right (by norm_num) h1
    omega

/-- Rounding the quotient by `2 ^ k` to nearest, ties to even, is monotone. -/
theorem rne_mono (k : Nat) {a b : Nat} (h : a ≤ b) :
    a / 2 ^ k + (if 2 * (a % 2 ^ k) > 2 ^ k ∨ (2 * (a % 2 ^ k) = 2 ^ k ∧ a / 2 ^ k % 2 = 1)
        then 1 else 0)
      ≤ b / 2 ^ k + (if 2 * (b % 2 ^ k) > 2 ^ k ∨ (2 * (b % 2 ^ k) = 2 ^ k ∧ b / 2 ^ k % 2 = 1)
        then 1 else 0) := by
  have hq : a / 2 ^ k ≤ b / 2 ^ k := Nat.div_le_div_right h
  have ea := Nat.div_add_mod a (2 ^ k)
  have eb := Nat.div_add_mod b (2 ^ k)
  rcases Nat.lt_or_eq_of_le hq with hlt | heq
  · split_ifs <;> omega
  · rw [← heq] at eb ⊢
    generalize 2 ^ k * (a / 2 ^ k) = X at ea eb
    generalize a / 2 ^ k = q
    generalize a % 2 ^ k = r1 at ea ⊢
    generalize b % 2 ^ k = r2 at eb ⊢
    generalize 2 ^ k = P
    split_ifs <;> omega

theorem roundMag_zero : roundMag 0 0 = 0 := by
  simp [roundMag, ilog2_zero]

/-- Rounding to binary32 is monotone on the non-negative fixed-point values. -/
theorem roundMag_mono {a b : Nat} (h : a ≤ b) (hb : b < 2 ^ 1024) :
    roundMag a 0 ≤ roundMag b 0 := by
  rcases Nat.eq_zero_or_pos a with rfl | ha
  · rw [roundMag_zero]; exact Nat.zero_le _
  have hL := ilog2_mono h hb
  obtain ⟨a1, a2⟩ := ilog2_spec 1024 a ha (lt_of_le_of_lt h hb)
  obtain ⟨b1, b2⟩ := ilog2_spec 1024 b (lt_of_lt_of_le ha h) hb
  simp only [roundMag, Nat.zero_le, max_eq_left, Nat.sub_zero]
  apply min_le_min_right
  generalize hLa : ilog2 1024 a = La at *
  generalize hLb : ilog2 1024 b = Lb at *
  rcases Nat.lt_or_eq_of_le (Nat.sub_le_sub_right hL 23) with hlt | heq
  · -- different binades
    have hqa : a / 2 ^ (La - 23) < 2 ^ 24 := by
      rw [Nat.div_lt_iff_lt_mul (Nat.two_pow_pos _)]
      calc a < 2 ^ (La + 1) := a2
        _ ≤ 2 ^ (24 + (La - 23)) := Nat.pow_le_pow_right (by norm_num) (by omega)
        _ = 2 ^ 24 * 2 ^ (La - 23) := by rw [pow_add]
    have hqb : 2 ^ 23 ≤ b / 2 ^ (Lb - 23) := by
      rw [Nat.le_div_iff_mul_le (Nat.two_pow_pos _)]
      calc 2 ^ 23 * 2 ^ (Lb - 23) = 2 ^ (23 + (Lb - 23)) := by rw [pow_add]
        _ = 2 ^ Lb := by congr 1; omega
        _ ≤ b := b1
    have hk : (La - 23 + 1) * 2 ^ 23 ≤ (Lb - 23) * 2 ^ 23 :=
      Nat.mul_le_mul_right _ hlt
    rw [Nat.add_mul] at hk
    simp only [Nat.reducePow, Nat.one_mul] at hk hqa hqb ⊢
    split_ifs <;> omega
  · rw [← heq]
    have := rne_mono (La - 23) h
    omega


theorem neg_sign (a : F32) : (neg a).sign = !a.sign := by
  unfold neg sign
  by_cases h : a.bits / 2 ^ 31 % 2 = 1
  · simp only [h, decide_True, if_true, Bool.not_true, decide_eq_false_iff_not]
    simp only [Nat.reducePow] at h ⊢
    omega
  · simp only [h, decide_False, Bool.false_eq_true, if_false, Bool.not_false, decide_eq_true_eq]
    simp only [Nat.reducePow] at h ⊢
    omega

theorem neg_expField (a : F32) : (neg a).expField = a.expField := by
  unfold neg expField sign
  by_cases h : a.bits / 2 ^ 31 % 2 = 1
  · simp only [h, decide_True, if_true]
    simp only [Nat.reducePow] at h ⊢
    omega
  · simp only [h, decide_False, Bool.false_eq_true, if_false]
    simp only [Nat.reducePow] at h ⊢
    omega

theorem neg_manField (a : F32) : (neg a).manField = a.manField := by
  unfold neg manField sign
  by_cases h : a.bits / 2 ^ 31 % 2 = 1
  · simp only [h, decide_True, if_true]
    simp only [Nat.reducePow] at h ⊢
    omega
  · simp only [h, decide_False, Bool.false_eq_true, if_false]
    simp only [Nat.reducePow] at h ⊢
    omega

theorem neg_mag (a : F32) : (neg a).mag = a.mag := by
  simp only [mag, neg_expField, neg_manField]

theorem neg_isNaN (a : F32) : (neg a).isNaN = a.isNaN := by
  simp only [isNaN, neg_expField, neg_manField]

theorem neg_isInf (a : F32) : (neg a).isInf = a.isInf := by
  simp only [isInf, neg_expField, neg_manField]

theorem neg_toInt (a : F32) : (neg a).toInt = -a.toInt := by
  simp only [toInt, neg_sign, neg_mag]
  cases a.sign <;> simp

theorem mag_of_isInf {a : F32} (h : a.isInf = true) : a.mag = 2 ^ 277 := by
  simp only [isInf, Bool.and_eq_true, decide_eq_true_eq] at h
  simp only [mag, h.1, h.2]
  norm_num

set_option maxRecDepth 100000 in
set_option exponentiation.threshold 2048 in
theorem lit_one : lit 1 0 = ⟨0x3F800000⟩ := by decide

set_option maxRecDepth 100000 in
set_option exponentiation.threshold 2048 in
theorem lit_zero : lit 0 0 = ⟨0⟩ := by decide

set_option maxRecDepth 100000 in
set_option exponentiation.threshold 2048 in
/-- On a depth in `[0, 1]` the key `floatBitsToUint(1.f - depth)` is the rounding of the exact
difference. -/
theorem sub_one_bits (d : F32) (h0 : le (lit 0 0) d = true) (h1 : le d (lit 1 0) = true) :
    (sub (lit 1 0) d).bits = roundMag (2 ^ 149 - d.mag) 0 ∧ d.toInt = d.mag ∧
      d.mag ≤ 2 ^ 149 := by
  rw [lit_zero] at h0
  rw [lit_one] at h1 ⊢
  have z1 : (⟨0⟩ : F32).toInt = 0 := by decide
  have o1 : (⟨0x3F800000⟩ : F32).toInt = 2 ^ 149 := by decide
  have o2 : (⟨0x3F800000⟩ : F32).isNaN = false := by decide
  have o3 : (⟨0x3F800000⟩ : F32).isInf = false := by decide
  have o4 : (⟨0x3F800000⟩ : F32).sign = false := by decide
  simp only [le, Bool.and_eq_true, Bool.not_eq_true', decide_eq_true_eq, z1, o1] at h0 h1
  obtain ⟨⟨-, hn⟩, hpos⟩ := h0
  obtain ⟨-, hle⟩ := h1
  have hti : d.toInt = d.mag := by
    unfold toInt at hpos ⊢
    cases hs : d.sign
    · simp
    · rw [hs] at hpos
      simp only [if_true] at hpos ⊢
      omega
  rw [hti] at hle
  have hm : d.mag ≤ 2 ^ 149 := by exact_mod_cast hle
  have hinf : d.isInf = false := by
    by_contra hc
    have := mag_of_isInf (by simpa using hc)
    rw [this] at hm
    norm_num at hm
  refine ⟨?_, hti, hm⟩
  simp only [sub, add, o2, neg_isNaN, hn, o3, neg_isInf, hinf, Bool.or_self, Bool.false_eq_true,
    if_false, o1, neg_toInt, hti, o4, Bool.false_and]
  by_cases he : (2 : Int) ^ 149 + -(d.mag : Int) = 0
  · have : d.mag = 2 ^ 149 := by
      have : (d.mag : Int) = 2 ^ 149 := by omega
      exact_mod_cast this
    rw [if_pos he, this, Nat.sub_self, roundMag_zero]
    rfl
  · have hlt : ¬ ((2 : Int) ^ 149 + -(d.mag : Int) < 0) := by omega
    have hna : ((2 : Int) ^ 149 + -(d.mag : Int)).natAbs = 2 ^ 149 - d.mag := by
      have h2 : (2 : Int) ^ 149 + -(d.mag : Int) = ((2 ^ 149 - d.mag : Nat) : Int) := by
        rw [Nat.cast_sub hm]; push_cast; ring
      rw [h2, Int.natAbs_ofNat]
    rw [if_neg he, hna, decide_eq_false hlt]
    simp only [ofSignMag, Bool.false_eq_true, if_false, Nat.zero_add]

/-- Weak monotonicity of the key in the depth, in binary32. -/
theorem key_antitone (dA dB : F32)
    (hA0 : le (lit 0 0) dA = true) (hA1 : le dA (lit 1 0) = true)
    (hB0 : le (lit 0 0) dB = true) (hB1 : le dB (lit 1 0) = true)
    (hlt : lt dA dB = true) :
    (sub (lit 1 0) dA).bits ≥ (sub (lit 1 0) dB).bits := by
  obtain ⟨a1, a2, a3⟩ := sub_one_bits dA hA0 hA1
  obtain ⟨b1, b2, b3⟩ := sub_one_bits dB hB0 hB1
  simp only [lt, Bool.and_eq_true, decide_eq_true_eq, a2, b2] at hlt
  have hm : dA.mag < dB.mag := by exact_mod_cast hlt.2
  rw [a1, b1]
  apply roundMag_mono (by omega)
  calc 2 ^ 149 - dA.mag ≤ 2 ^ 149 := Nat.sub_le _ _
    _ < 2 ^ 1024 := by norm_num


/-- A square root taken of a value that is not `>= 0.f` is a NaN, so it is not
`>= size_threshold`. -/
theorem sqrt_of_not_nonneg (x : F32) (h : le (lit 0 0) x = false) :
    le (lit 1 4) (sqrt x) = false := by
  rw [lit_zero] at h
  have z1 : (⟨0⟩ : F32).toInt = 0 := by decide
  have z2 : (⟨0⟩ : F32).isNaN = false := by decide
  have hn : nan.isNaN = true := by decide
  have hnan : sqrt x = nan := by
    unfold sqrt
    by_cases h1 : x.isNaN = true
    · simp [h1]
    · have h1f : x.isNaN = false := by simpa using h1
      simp only [le, z1, z2, h1f, Bool.not_false, Bool.true_and, decide_eq_false_iff_not,
        not_le] at h
      have hs : x.sign = true := by
        unfold toInt at h
        cases hs : x.sign
        · rw [hs] at h
          simp only [Bool.false_eq_true, if_false] at h
          have := Int.ofNat_nonneg x.mag
          omega
        · rfl
      have hm : x.mag ≠ 0 := by
        intro hm
        simp [toInt, hm] at h
      simp [h1f, hm, hs]
  rw [hnan]
  simp [le, hn]

end F32

theorem sortKey_f32 (sc : Scene F32) (id : Nat) :
    sortKey F32.ops sc id = (F32.sub (F32.lit 1 0) (depth F32.ops sc id)).bits := by
  simp only [sortKey, F32.ops]

/-! ## Evaluation of the shader on `demoScene` -/

set_option maxRecDepth 100000 in
set_option exponentiation.threshold 2048 in
theorem demo_depth0 : depth F32.ops demoScene 0 = ⟨0x21800000⟩ := by decide

set_option maxRecDepth 100000 in
set_option exponentiation.threshold 2048 in
theorem demo_depth1 : depth F32.ops demoScene 1 = ⟨0x26800000⟩ := by decide

set_option maxRecDepth 100000 in
set_option exponentiation.threshold 2048 in
theorem demo_depth2 : depth F32.ops demoScene 2 = ⟨0x3F800000⟩ := by decide

set_option maxRecDepth 100000 in
set_option exponentiation.threshold 2048 in
theorem demo_frustum0 : frustumTest F32.ops (ndc F32.ops demoScene 0) = true := by decide

set_option maxRecDepth 100000 in
set_option exponentiation.threshold 2048 in
theorem demo_frustum1 : frustumTest F32.ops (ndc F32.ops demoScene 1) = true := by decide

set_option maxRecDepth 100000 in
set_option exponentiation.threshold 2048 in
theorem demo_size0 :
    sizeTest F32.ops (eigenRadii F32.ops (cov2d F32.ops demoScene 0)) = true := by decide

set_option maxRecDepth 100000 in
set_option exponentiation.threshold 2048 in
theorem demo_size1 :
    sizeTest F32.ops (eigenRadii F32.ops (cov2d F32.ops demoScene 1)) = true := by decide

theorem demo_emits0 : emits F32.ops demoScene 0 = true :=
  (emits_iff F32.ops demoScene 0).mpr ⟨by decide, demo_frustum0, demo_size0⟩

theorem demo_emits1 : emits F32.ops demoScene 1 = true :=
  (emits_iff F32.ops demoScene 1).mpr ⟨by decide, demo_frustum1, demo_size1⟩

/-- C4 (amended): weak monotonicity of the sort key in binary32.  For two splats whose depths
lie in `[0, 1]` with `depth(A) < depth(B)`, the keys satisfy `sortKey(A) >= sortKey(B)` as
unsigned integers, where `sortKey = floatBitsToUint(1.f - depth)`. -/
theorem sortKey_weakly_monotone (sc : Scene F32) (A B : Nat)
    (hA0 : F32.le (F32.lit 0 0) (depth F32.ops sc A) = true)
    (hA1 : F32.le (depth F32.ops sc A) (F32.lit 1 0) = true)
    (hB0 : F32.le (F32.lit 0 0) (depth F32.ops sc B) = true)
    (hB1 : F32.le (depth F32.ops sc B) (F32.lit 1 0) = true)
    (hlt : F32.lt (depth F32.ops sc A) (depth F32.ops sc B) = true) :
    sortKey F32.ops sc A ≥ sortKey F32.ops sc B := by
  rw [sortKey_f32, sortKey_f32]
  exact F32.key_antitone (depth F32.ops sc A) (depth F32.ops sc B) hA0 hA1 hB0 hB1 hlt

set_option maxRecDepth 100000 in
set_option exponentiation.threshold 2048 in
/-- C4, counterexample: splats 0 and 1 of `demoScene` are both emitted, their depths `2^-60` and
`2^-50` lie in `[0, 1]` and `depth(0) < depth(1)`, but `1.f - depth` rounds to `1.f` for both, so
the key of splat 0 is not greater than the key of splat 1. -/
theorem sortKey_not_strictly_monotone :
    emits F32.ops demoScene 0 = true ∧ emits F32.ops demoScene 1 = true ∧
    F32.le (F32.lit 0 0) (depth F32.ops demoScene 0) = true ∧
    F32.le (depth F32.ops demoScene 0) (F32.lit 1 0) = true ∧
    F32.le (F32.lit 0 0) (depth F32.ops demoScene 1) = true ∧
    F32.le (depth F32.ops demoScene 1) (F32.lit 1 0) = true ∧
    F32.lt (depth F32.ops demoScene 0) (depth F32.ops demoScene 1) = true ∧
    ¬ (sortKey F32.ops demoScene 0 > sortKey F32.ops demoScene 1) := by
  refine ⟨demo_emits0, demo_emits1, ?_⟩
  rw [sortKey_f32, sortKey_f32, demo_depth0, demo_depth1]
  decide

set_option maxRecDepth 100000 in
set_option exponentiation.threshold 2048 in
/-- C4 (amended), witness: splats 1 and 2 of `demoScene`, of depths `2^-50` and `1`. -/
theorem sortKey_weakly_monotone_witness :
    F32.le (F32.lit 0 0) (depth F32.ops demoScene 1) = true ∧
    F32.le (depth F32.ops demoScene 1) (F32.lit 1 0) = true ∧
    F32.le (F32.lit 0 0) (depth F32.ops demoScene 2) = true ∧
    F32.le (depth F32.ops demoScene 2) (F32.lit 1 0) = true ∧
    F32.lt (depth F32.ops demoScene 1) (depth F32.ops demoScene 2) = true ∧
    sortKey F32.ops demoScene 1 ≥ sortKey F32.ops demoScene 2 := by
  have h1 : F32.le (F32.lit 0 0) (depth F32.ops demoScene 1) = true := by
    rw [demo_depth1]; decide
  have h2 : F32.le (depth F32.ops demoScene 1) (F32.lit 1 0) = true := by
    rw [demo_depth1]; decide
  have h3 : F32.le (F32.lit 0 0) (depth F32.ops demoScene 2) = true := by
    rw [demo_depth2]; decide
  have h4 : F32.le (depth F32.ops demoScene 2) (F32.lit 1 0) = true := by
    rw [demo_depth2]; decide
  have h5 : F32.lt (depth F32.ops demoScene 1) (depth F32.ops demoScene 2) = true := by
    rw [demo_depth1, demo_depth2]; decide
  exact ⟨h1, h2, h3, h4, h5, sortKey_weakly_monotone demoScene 1 2 h1 h2 h3 h4 h5⟩

end pygs

namespace pygs

/-! ## Interleaved executions are sequential passes -/

section Interleaving

variable {α : Type} (ops : FloatOps α) (sc : Scene α)

theorem runPass_append (l₁ l₂ : List Nat) (out : Output) :
    runPass ops sc (l₁ ++ l₂) out = runPass ops sc l₂ (runPass ops sc l₁ out) := by
  simp [runPass, List.foldl_append]

theorem emitted_length_le_of_nodup {l : List Nat} (h : l.Nodup) :
    (emitted ops sc l).length ≤ sc.point_count := by
  have hnd : (emitted ops sc l).Nodup := h.filter _
  have hsub : emitted ops sc l ⊆ List.range sc.point_count := by
    intro a ha
    exact List.mem_range.mpr (emits_lt ops sc (List.mem_filter.mp ha).2)
  simpa using (hnd.subperm hsub).length_le

theorem runPass_count_of_nodup {l : List Nat} (h : l.Nodup) (out : Output)
    (hpc : sc.point_count < 2 ^ 32) (h0 : out.instanceCount = 0) :
    (runPass ops sc l out).instanceCount = (emitted ops sc l).length := by
  have hlen := emitted_length_le_of_nodup ops sc h
  have := (runPass_spec ops sc l out (by rw [h0]; omega)).1
  rw [this, h0]; simp

theorem inv_step (out0 : Output) (hpc : sc.point_count < 2 ^ 32)
    (h0 : out0.instanceCount = 0) (seen : List Nat) (m : Machine) (id : Nat)
    (inv : Inv ops sc out0 seen m) :
    Inv ops sc out0 (noteStep seen id) (stepThread ops sc id m) := by
  cases hph : m.phase id with
  | ready =>
    have hns : id ∉ seen := (inv.ready_iff id).mp hph
    have hseen : noteStep seen id = seen ++ [id] := by simp [noteStep, hns]
    have hnd : (seen ++ [id]).Nodup := by
      rw [List.nodup_append]
      refine ⟨inv.nodup, List.nodup_singleton _, ?_⟩
      intro a ha hb
      rw [List.mem_singleton] at hb
      subst hb
      exact hns ha
    have hrun : runPass ops sc (seen ++ [id]) out0
        = main ops sc id (runPass ops sc seen out0) := by
      rw [runPass_append]; rfl
    rw [hseen]
    by_cases he : emits ops sc id = true
    · have hstep : stepThread ops sc id m =
          { out := { m.out with instanceCount := u32 (m.out.instanceCount + 1) }
            phase := Function.update m.phase id (.granted m.out.instanceCount) } := by
        simp [stepThread, hph, he]
      have hmain := main_of_emits ops sc (runPass ops sc seen out0) he
      have hcnt := runPass_count_of_nodup ops sc inv.nodup out0 hpc h0
      have hcnt' := runPass_count_of_nodup ops sc hnd out0 hpc h0
      have hlen' := emitted_length_le_of_nodup ops sc hnd
      have hem : emitted ops sc (seen ++ [id]) = emitted ops sc seen ++ [id] := by
        simp [emitted, List.filter_append, he]
      rw [hem, List.length_append, List.length_singleton] at hcnt' hlen'
      set n := (runPass ops sc seen out0).instanceCount with hn
      have hmn : m.out.instanceCount = n := inv.count
      have hidx : (runPass ops sc (seen ++ [id]) out0).index
          = Function.update (runPass ops sc seen out0).index n id := by
        rw [hrun, hmain]
      have hkey : (runPass ops sc (seen ++ [id]) out0).key
          = Function.update (runPass ops sc seen out0).key n (sortKey ops sc id) := by
        rw [hrun, hmain]
      rw [hstep]
      refine ⟨hnd, ?_, ?_, inv.fields, ?_, ?_, ?_⟩
      · intro j
        by_cases hj : j = id
        · subst hj; simp
        · simp only [Function.update_noteq hj, List.mem_append, List.mem_singleton, hj, or_false]
          exact inv.ready_iff j
      · show u32 (m.out.instanceCount + 1) = _
        rw [hrun, hmain, hmn]
      · intro j s hjs
        rw [hcnt', hidx, hkey]
        by_cases hj : j = id
        · subst hj
          simp only [Function.update_same, Phase.granted.injEq, reduceCtorEq, or_false] at hjs
          rw [hmn] at hjs
          subst hjs
          refine ⟨by omega, by simp, by simp⟩
        · simp only [Function.update_noteq hj] at hjs
          obtain ⟨p1, p2, p3⟩ := inv.pending j s hjs
          have hsn : s ≠ n := Nat.ne_of_lt p1
          refine ⟨by omega, ?_, ?_⟩
          · rw [Function.update_noteq hsn]; exact p2
          · rw [Function.update_noteq hsn]; exact p3
      · intro s hs
        have hsn : s ≠ n := by
          intro h
          have := hs id
          simp [h, hmn] at this
        rw [hkey, Function.update_noteq hsn]
        apply inv.key_ok
        intro j
        by_cases hj : j = id
        · subst hj; rw [hph]; simp
        · have := hs j
          simpa [Function.update_noteq hj] using this
      · intro s hs
        have hsn : s ≠ n := by
          intro h
          have := (hs id).1
          simp [h, hmn] at this
        rw [hidx, Function.update_noteq hsn]
        apply inv.index_ok
        intro j
        by_cases hj : j = id
        · subst hj; rw [hph]; simp
        · have := hs j
          simpa [Function.update_noteq hj] using this
    · have he' : emits ops sc id = false := by simpa using he
      have hstep : stepThread ops sc id m =
          { m with phase := Function.update m.phase id .done } := by
        simp [stepThread, hph, he']
      have hrun' : runPass ops sc (seen ++ [id]) out0 = runPass ops sc seen out0 := by
        rw [hrun, main_of_not_emits ops sc _ he']
      rw [hstep]
      refine ⟨hnd, ?_, by rw [hrun']; exact inv.count, inv.fields, ?_, ?_, ?_⟩
      · intro j
        by_cases hj : j = id
        · subst hj; simp
        · simp only [Function.update_noteq hj, List.mem_append, List.mem_singleton, hj, or_false]
          exact inv.ready_iff j
      · intro j s hjs
        rw [hrun']
        by_cases hj : j = id
        · subst hj; simp at hjs
        · simp only [Function.update_noteq hj] at hjs
          exact inv.pending j s hjs
      · intro s hs
        rw [hrun']
        apply inv.key_ok
        intro j
        by_cases hj : j = id
        · subst hj; rw [hph]; simp
        · have := hs j
          simpa [Function.update_noteq hj] using this
      · intro s hs
        rw [hrun']
        apply inv.index_ok
        intro j
        by_cases hj : j = id
        · subst hj; rw [hph]; simp
        · have := hs j
          simpa [Function.update_noteq hj] using this
  | granted s =>
    have hs : id ∈ seen := by
      by_contra hc
      have := (inv.ready_iff id).mpr hc
      rw [hph] at this; cases this
    have hseen : noteStep seen id = seen := by simp [noteStep, hs]
    have hstep : stepThread ops sc id m =
        { out := { m.out with key := Function.update m.out.key s (sortKey ops sc id) }
          phase := Function.update m.phase id (.keyStored s) } := by
      simp [stepThread, hph]
    obtain ⟨p1, p2, p3⟩ := inv.pending id s (Or.inl hph)
    rw [hseen, hstep]
    refine ⟨inv.nodup, ?_, inv.count, inv.fields, ?_, ?_, ?_⟩
    · intro j
      by_cases hj : j = id
      · subst hj; simp [hs]
      · simp only [Function.update_noteq hj]
        exact inv.ready_iff j
    · intro j t hjt
      by_cases hj : j = id
      · subst hj
        simp only [Function.update_same, reduceCtorEq, Phase.keyStored.injEq, false_or] at hjt
        subst hjt
        exact ⟨p1, p2, p3⟩
      · simp only [Function.update_noteq hj] at hjt
        exact inv.pending j t hjt
    · intro t ht
      by_cases hts : t = s
      · subst hts; simp [p3]
      · show Function.update m.out.key s (sortKey ops sc id) t = _
        rw [Function.update_noteq hts]
        apply inv.key_ok
        intro j
        by_cases hj : j = id
        · subst hj; rw [hph]; simp; exact fun h => hts h.symm
        · have := ht j
          simpa [Function.update_noteq hj] using this
    · intro t ht
      have hts : t ≠ s := by
        intro h
        have := (ht id).2
        simp [h] at this
      apply inv.index_ok
      intro j
      by_cases hj : j = id
      · subst hj; rw [hph]; simp; exact fun h => hts h.symm
      · have := ht j
        simpa [Function.update_noteq hj] using this
  | keyStored s =>
    have hs : id ∈ seen := by
      by_contra hc
      have := (inv.ready_iff id).mpr hc
      rw [hph] at this; cases this
    have hseen : noteStep seen id = seen := by simp [noteStep, hs]
    have hstep : stepThread ops sc id m =
        { out := { m.out with index := Function.update m.out.index s id }
          phase := Function.update m.phase id .done } := by
      simp [stepThread, hph]
    obtain ⟨p1, p2, p3⟩ := inv.pending id s (Or.inr hph)
    rw [hseen, hstep]
    refine ⟨inv.nodup, ?_, inv.count, inv.fields, ?_, ?_, ?_⟩
    · intro j
      by_cases hj : j = id
      · subst hj; simp [hs]
      · simp only [Function.update_noteq hj]
        exact inv.ready_iff j
    · intro j t hjt
      by_cases hj : j = id
      · subst hj; simp at hjt
      · simp only [Function.update_noteq hj] at hjt
        exact inv.pending j t hjt
    · intro t ht
      apply inv.key_ok
      intro j
      by_cases hj : j = id
      · subst hj; rw [hph]; simp
      · have := ht j
        simpa [Function.update_noteq hj] using this
    · intro t ht
      by_cases hts : t = s
      · subst hts; simp [p2]
      · show Function.update m.out.index s id t = _
        rw [Function.update_noteq hts]
        apply inv.index_ok
        intro j
        by_cases hj : j = id
        · subst hj; rw [hph]; simp; exact fun h => hts h.symm
        · have := ht j
          simpa [Function.update_noteq hj] using this
  | done =>
    have hs : id ∈ seen := by
      by_contra hc
      have := (inv.ready_iff id).mpr hc
      rw [hph] at this; cases this
    have hseen : noteStep seen id = seen := by simp [noteStep, hs]
    have hstep : stepThread ops sc id m = m := by
      simp [stepThread, hph]
    rw [hseen, hstep]
    exact inv


theorem inv_init (out0 : Output) : Inv ops sc out0 [] (Machine.init out0) := by
  refine ⟨List.nodup_nil, ?_, rfl, ⟨rfl, rfl, rfl, rfl⟩, ?_, ?_, ?_⟩
  · intro id; simp [Machine.init]
  · intro id s h; simp [Machine.init] at h
  · intro s _; rfl
  · intro s _; rfl

theorem inv_run (out0 : Output) (hpc : sc.point_count < 2 ^ 32) (h0 : out0.instanceCount = 0)
    (sched : List Nat) :
    ∀ (seen : List Nat) (m : Machine), Inv ops sc out0 seen m →
      Inv ops sc out0 (sched.foldl noteStep seen) (runSchedule ops sc sched m) := by
  induction sched with
  | nil => intro seen m inv; exact inv
  | cons id rest ih =>
    intro seen m inv
    exact ih _ _ (inv_step ops sc out0 hpc h0 seen m id inv)

theorem mem_foldl_noteStep (sched : List Nat) :
    ∀ (seen : List Nat) (id : Nat), id ∈ sched.foldl noteStep seen → id ∈ seen ∨ id ∈ sched := by
  induction sched with
  | nil => intro seen id h; exact Or.inl h
  | cons a rest ih =>
    intro seen id h
    rcases ih _ _ h with h1 | h1
    · unfold noteStep at h1
      split_ifs at h1
      · exact Or.inl h1
      · rcases List.mem_append.mp h1 with h2 | h2
        · exact Or.inl h2
        · exact Or.inr (by simp [List.mem_singleton.mp h2])
    · exact Or.inr (List.mem_cons_of_mem _ h1)

theorem main_fields (id : Nat) (out : Output) :
    (main ops sc id out).indexCount = out.indexCount ∧
    (main ops sc id out).firstIndex = out.firstIndex ∧
    (main ops sc id out).vertexOffset = out.vertexOffset ∧
    (main ops sc id out).firstInstance = out.firstInstance := by
  by_cases he : emits ops sc id = true
  · rw [main_of_emits ops sc out he]; exact ⟨rfl, rfl, rfl, rfl⟩
  · rw [main_of_not_emits ops sc out (by simpa using he)]; exact ⟨rfl, rfl, rfl, rfl⟩

theorem runPass_fields (order : List Nat) :
    ∀ out : Output,
      (runPass ops sc order out).indexCount = out.indexCount ∧
      (runPass ops sc order out).firstIndex = out.firstIndex ∧
      (runPass ops sc order out).vertexOffset = out.vertexOffset ∧
      (runPass ops sc order out).firstInstance = out.firstInstance := by
  induction order with
  | nil => intro out; exact ⟨rfl, rfl, rfl, rfl⟩
  | cons id rest ih =>
    intro out
    rw [runPass_cons]
    obtain ⟨a1, a2, a3, a4⟩ := ih (main ops sc id out)
    obtain ⟨b1, b2, b3, b4⟩ := main_fields ops sc id out
    exact ⟨a1.trans b1, a2.trans b2, a3.trans b3, a4.trans b4⟩

/-- Serialisation: an interleaved execution in which every dispatched invocation has returned
leaves the output of the sequential pass that runs the invocations in the order of their first
steps, and that order is a permutation of the dispatched ids. -/
theorem runSchedule_serial (dispatched : Nat) (sched : List Nat) (out0 : Output)
    (hpc : sc.point_count < 2 ^ 32) (h0 : out0.instanceCount = 0)
    (hin : ∀ id, id ∈ sched → id < dispatched)
    (hall : ∀ id, id < dispatched →
      (runSchedule ops sc sched (Machine.init out0)).phase id = Phase.done) :
    (firstSteps sched).Perm (List.range dispatched) ∧
    (runSchedule ops sc sched (Machine.init out0)).out
      = runPass ops sc (firstSteps sched) out0 := by
  have inv : Inv ops sc out0 (firstSteps sched) (runSchedule ops sc sched (Machine.init out0)) :=
    inv_run ops sc out0 hpc h0 sched [] _ (inv_init ops sc out0)
  have hmem : ∀ id, id ∈ firstSteps sched ↔ id < dispatched := by
    intro id
    constructor
    · intro h
      rcases mem_foldl_noteStep sched [] id h with h1 | h1
      · cases h1
      · exact hin id h1
    · intro h
      by_contra hc
      have := (inv.ready_iff id).mpr hc
      rw [hall id h] at this
      cases this
  have hphase : ∀ id, (runSchedule ops sc sched (Machine.init out0)).phase id = Phase.ready ∨
      (runSchedule ops sc sched (Machine.init out0)).phase id = Phase.done := by
    intro id
    by_cases h : id < dispatched
    · exact Or.inr (hall id h)
    · exact Or.inl ((inv.ready_iff id).mpr (fun hc => h ((hmem id).mp hc)))
  refine ⟨?_, ?_⟩
  · rw [List.perm_ext_iff_of_nodup inv.nodup (List.nodup_range _)]
    intro id
    rw [hmem, List.mem_range]
  · obtain ⟨f1, f2, f3, f4⟩ := inv.fields
    obtain ⟨g1, g2, g3, g4⟩ := runPass_fields ops sc (firstSteps sched) out0
    have hkey : (runSchedule ops sc sched (Machine.init out0)).out.key
        = (runPass ops sc (firstSteps sched) out0).key := by
      funext s
      apply inv.key_ok
      intro id
      rcases hphase id with h | h <;> rw [h] <;> simp
    have hidx : (runSchedule ops sc sched (Machine.init out0)).out.index
        = (runPass ops sc (firstSteps sched) out0).index := by
      funext s
      apply inv.index_ok
      intro id
      rcases hphase id with h | h <;> rw [h] <;> simp
    have hcnt := inv.count
    generalize (runSchedule ops sc sched (Machine.init out0)).out = a at *
    generalize runPass ops sc (firstSteps sched) out0 = b at *
    cases a; cases b
    simp only at f1 f2 f3 f4 g1 g2 g3 g4 hkey hidx hcnt
    simp only [Output.mk.injEq]
    exact ⟨f1.trans g1.symm, hcnt, f2.trans g2.symm, f3.trans g3.symm, f4.trans g4.symm,
      hkey, hidx⟩

end Interleaving

/-- Serialisation at `demoScene`: invocations 0 and 1 interleaved. -/
theorem runSchedule_serial_demo :
    (firstSteps [0, 1, 1, 0, 0, 1]).Perm (List.range 2) ∧
    (runSchedule F32.ops demoScene [0, 1, 1, 0, 0, 1] (Machine.init clearedOutput)).out
      = runPass F32.ops demoScene (firstSteps [0, 1, 1, 0, 0, 1]) clearedOutput := by
  apply runSchedule_serial F32.ops demoScene 2 [0, 1, 1, 0, 0, 1] clearedOutput (by decide) rfl
  · decide
  · intro id hid
    have h : id = 0 ∨ id = 1 := by omega
    rcases h with rfl | rfl <;>
      simp [runSchedule, stepThread, Machine.init, demo_emits0, demo_emits1, Function.update]

end pygs

namespace pygs

/-! ## Exact real arithmetic -/

section Exact

variable (ops : FloatOps ℝ)

theorem discriminant_exact (h : ops.IsExact) (a b c : ℝ) :
    discriminant ops a b c = Real.sqrt ((a - b) ^ 2 + 4 * c ^ 2) := by
  simp only [discriminant, h.sqrt, h.add, h.mul, h.sub, h.lit]
  congr 1
  norm_num
  ring

theorem lambda0_exact (h : ops.IsExact) (a b c : ℝ) :
    lambda0 ops a b c = (a + b + Real.sqrt ((a - b) ^ 2 + 4 * c ^ 2)) / 2 := by
  simp only [lambda0, discriminant_exact ops h, h.mul, h.add, h.lit]
  norm_num
  ring

theorem lambda1_exact (h : ops.IsExact) (a b c : ℝ) :
    lambda1 ops a b c = (a + b - Real.sqrt ((a - b) ^ 2 + 4 * c ^ 2)) / 2 := by
  simp only [lambda1, discriminant_exact ops h, h.mul, h.add, h.sub, h.lit]
  norm_num
  ring

/-- C8: exactness of the closed-form eigenvalues.  In exact real arithmetic, for all real
`a, b, c`, with `D = sqrt((a - b)^2 + 4 c^2)` the values `l0 = (a + b + D) / 2` and
`l1 = (a + b - D) / 2`, whose square roots the shader takes as `s0` and `s1`, are exactly the
roots of the characteristic polynomial `x^2 - (a + b) x + (a b - c^2)` of `[[a, c], [c, b]]`,
with `l0 + l1 = a + b`, `l0 * l1 = a b - c^2` and `l0 >= l1`. -/
theorem eigenvalues_exact (h : ops.IsExact) (a b c : ℝ) :
    discriminant ops a b c = Real.sqrt ((a - b) ^ 2 + 4 * c ^ 2) ∧
    lambda0 ops a b c = (a + b + discriminant ops a b c) / 2 ∧
    lambda1 ops a b c = (a + b - discriminant ops a b c) / 2 ∧
    eigenRadii ops ⟨⟨a, c⟩, ⟨c, b⟩⟩
      = (Real.sqrt (lambda0 ops a b c), Real.sqrt (lambda1 ops a b c)) ∧
    (lambda0 ops a b c) ^ 2 - (a + b) * lambda0 ops a b c + (a * b - c ^ 2) = 0 ∧
    (lambda1 ops a b c) ^ 2 - (a + b) * lambda1 ops a b c + (a * b - c ^ 2) = 0 ∧
    (∀ x : ℝ, x ^ 2 - (a + b) * x + (a * b - c ^ 2) = 0 ↔
      x = lambda0 ops a b c ∨ x = lambda1 ops a b c) ∧
    lambda0 ops a b c + lambda1 ops a b c = a + b ∧
    lambda0 ops a b c * lambda1 ops a b c = a * b - c ^ 2 ∧
    lambda0 ops a b c ≥ lambda1 ops a b c := by
  have hX : 0 ≤ (a - b) ^ 2 + 4 * c ^ 2 := by positivity
  have hD : Real.sqrt ((a - b) ^ 2 + 4 * c ^ 2) * Real.sqrt ((a - b) ^ 2 + 4 * c ^ 2)
      = (a - b) ^ 2 + 4 * c ^ 2 := Real.mul_self_sqrt hX
  have hD0 : 0 ≤ Real.sqrt ((a - b) ^ 2 + 4 * c ^ 2) := Real.sqrt_nonneg _
  have hER : eigenRadii ops ⟨⟨a, c⟩, ⟨c, b⟩⟩
      = (Real.sqrt (lambda0 ops a b c), Real.sqrt (lambda1 ops a b c)) := by
    simp only [eigenRadii, h.sqrt]
  refine ⟨discriminant_exact ops h a b c, ?_, ?_, hER, ?_⟩
  · rw [lambda0_exact ops h, discriminant_exact ops h]
  · rw [lambda1_exact ops h, discriminant_exact ops h]
  rw [lambda0_exact ops h, lambda1_exact ops h]
  generalize Real.sqrt ((a - b) ^ 2 + 4 * c ^ 2) = D at hD hD0
  refine ⟨?_, ?_, ?_, ?_, ?_, ?_⟩
  · linear_combination (1 / 4) * hD
  · linear_combination (1 / 4) * hD
  · intro x
    have hfac : x ^ 2 - (a + b) * x + (a * b - c ^ 2)
        = (x - (a + b + D) / 2) * (x - (a + b - D) / 2) := by
      linear_combination (1 / 4) * hD
    rw [hfac, mul_eq_zero, sub_eq_zero, sub_eq_zero]
  · ring
  · linear_combination (-1 / 4) * hD
  · linarith

/-- The quadratic form of `A * M * transpose(A)` at `v` is that of `M` at `transpose(A) * v`. -/
theorem mat3_congr_quadForm (h : ops.IsExact) (A M : Mat3 ℝ) (x y z : ℝ) :
    (Mat3.mul ops (Mat3.mul ops A M) (Mat3.transpose A)).quadForm x y z
      = M.quadForm (A.c0.x * x + A.c0.y * y + A.c0.z * z)
          (A.c1.x * x + A.c1.y * y + A.c1.z * z)
          (A.c2.x * x + A.c2.y * y + A.c2.z * z) := by
  simp only [Mat3.mul, Mat3.mulVec, Mat3.transpose, dot3, Mat3.quadForm, h.add, h.mul]
  ring

theorem mat3_congr_symm (h : ops.IsExact) (A M : Mat3 ℝ) (hM : M.IsSymm) :
    (Mat3.mul ops (Mat3.mul ops A M) (Mat3.transpose A)).IsSymm := by
  obtain ⟨s1, s2, s3⟩ := hM
  simp only [Mat3.IsSymm, Mat3.mul, Mat3.mulVec, Mat3.transpose, dot3, h.add, h.mul]
  refine ⟨?_, ?_, ?_⟩ <;> rw [s1, s2, s3] <;> ring

theorem mat3_congr_psd (h : ops.IsExact) (A M : Mat3 ℝ) (hM : M.IsPSD) :
    (Mat3.mul ops (Mat3.mul ops A M) (Mat3.transpose A)).IsPSD := by
  refine ⟨mat3_congr_symm ops h A M hM.1, fun x y z => ?_⟩
  rw [mat3_congr_quadForm ops h]
  exact hM.2 _ _ _

theorem toMat2_psd (M : Mat3 ℝ) (hM : M.IsPSD) : (Mat3.toMat2 M).IsPSD := by
  refine ⟨hM.1.1, fun x y => ?_⟩
  have := hM.2 x y 0
  simp only [Mat3.quadForm, Mat3.toMat2, Mat2.quadForm] at this ⊢
  linarith

theorem mat2_scale_psd (h : ops.IsExact) (P M : Mat2 ℝ) (hP : P.IsSymm) (hM : M.IsPSD) :
    (Mat2.mul ops (Mat2.mul ops P M) P).IsPSD := by
  obtain ⟨hs, hq⟩ := hM
  unfold Mat2.IsSymm at hP hs
  constructor
  · simp only [Mat2.IsSymm, Mat2.mul, Mat2.mulVec, h.add, h.mul]
    rw [hP, hs]; ring
  · intro x y
    have := hq (P.c0.x * x + P.c1.x * y) (P.c0.y * x + P.c1.y * y)
    simp only [Mat2.quadForm, Mat2.mul, Mat2.mulVec, h.add, h.mul] at this ⊢
    rw [hP] at this ⊢
    linarith [this]

/-- A symmetric positive semi-definite 2x2 matrix has non-negative trace and determinant. -/
theorem mat2_psd_trace_det (m : Mat2 ℝ) (hm : m.IsPSD) :
    0 ≤ m.c0.x + m.c1.y ∧ 0 ≤ m.c0.x * m.c1.y - m.c1.x ^ 2 := by
  obtain ⟨hs, hq⟩ := hm
  unfold Mat2.IsSymm at hs
  simp only [Mat2.quadForm, ← hs] at hq
  generalize m.c0.x = a at hq ⊢
  generalize m.c1.y = b at hq ⊢
  generalize m.c1.x = c at hq ⊢
  have ha : 0 ≤ a := by have := hq 1 0; linarith
  have hb : 0 ≤ b := by have := hq 0 1; linarith
  refine ⟨by linarith, ?_⟩
  by_contra hneg
  push_neg at hneg
  rcases ha.lt_or_eq with hpos | hzero
  · have := hq c (-a)
    nlinarith
  · subst hzero
    have hc : c ≠ 0 := by
      rintro rfl
      norm_num at hneg
    have := hq (-(b + 1) / (2 * c)) 1
    have e : -(b + 1) / (2 * c) * (0 * (-(b + 1) / (2 * c)) + c * 1)
        + 1 * (c * (-(b + 1) / (2 * c)) + b * 1) = -1 := by
      field_simp
      ring
    rw [e] at this
    linarith

/-- C10: positive semi-definiteness is preserved by the covariance projection.  In exact real
arithmetic, for every view matrix, every position whose view-space `z` is not zero, every
projection whose upper-left 2x2 block is symmetric and every packed covariance whose
reconstructed 3x3 matrix is positive semi-definite, the shader's `cov2d` is symmetric and
positive semi-definite; hence with `a = cov2d[0][0]`, `b = cov2d[1][1]`, `c = cov2d[1][0]` and
`D = sqrt((a - b)^2 + 4 c^2)`, both `a + b + D >= 0` and `a + b - D >= 0`, so neither square
root of `s0`, `s1` is taken of a negative number; the range `r = length(vec3(pos))` that `J`
divides by is positive. -/
theorem cov2d_psd (h : ops.IsExact) (projection view : Mat4 ℝ) (wpos : Vec4 ℝ)
    (v0 v1 : Vec3 ℝ)
    (hz : (Mat4.mulVec ops view wpos).z ≠ 0)
    (hP : (Mat4.toMat2 projection).IsSymm)
    (hcov : (packedCov3d v0 v1).IsPSD) :
    0 < Vec3.length ops (Vec4.toVec3 (Mat4.mulVec ops view wpos)) ∧
    (projectCov ops projection view wpos v0 v1).IsPSD ∧
    0 ≤ (projectCov ops projection view wpos v0 v1).c0.x
        + (projectCov ops projection view wpos v0 v1).c1.y
        + discriminant ops (projectCov ops projection view wpos v0 v1).c0.x
            (projectCov ops projection view wpos v0 v1).c1.y
            (projectCov ops projection view wpos v0 v1).c1.x ∧
    0 ≤ (projectCov ops projection view wpos v0 v1).c0.x
        + (projectCov ops projection view wpos v0 v1).c1.y
        - discriminant ops (projectCov ops projection view wpos v0 v1).c0.x
            (projectCov ops projection view wpos v0 v1).c1.y
            (projectCov ops projection view wpos v0 v1).c1.x ∧
    0 ≤ lambda0 ops (projectCov ops projection view wpos v0 v1).c0.x
          (projectCov ops projection view wpos v0 v1).c1.y
          (projectCov ops projection view wpos v0 v1).c1.x ∧
    0 ≤ lambda1 ops (projectCov ops projection view wpos v0 v1).c0.x
          (projectCov ops projection view wpos v0 v1).c1.y
          (projectCov ops projection view wpos v0 v1).c1.x := by
  have hpsd : (projectCov ops projection view wpos v0 v1).IsPSD := by
    unfold projectCov
    exact mat2_scale_psd ops h _ _ hP
      (toMat2_psd _ (mat3_congr_psd ops h _ _ (mat3_congr_psd ops h _ _ hcov)))
  have hr : 0 < Vec3.length ops (Vec4.toVec3 (Mat4.mulVec ops view wpos)) := by
    simp only [Vec3.length, Vec4.toVec3, dot3, h.sqrt, h.add, h.mul]
    apply Real.sqrt_pos.mpr
    have := mul_self_pos.mpr hz
    nlinarith [mul_self_nonneg (Mat4.mulVec ops view wpos).x,
      mul_self_nonneg (Mat4.mulVec ops view wpos).y]
  obtain ⟨htr, hdet⟩ := mat2_psd_trace_det _ hpsd
  rw [lambda0_exact ops h, lambda1_exact ops h, discriminant_exact ops h]
  generalize (projectCov ops projection view wpos v0 v1).c0.x = a at htr hdet ⊢
  generalize (projectCov ops projection view wpos v0 v1).c1.y = b at htr hdet ⊢
  generalize (projectCov ops projection view wpos v0 v1).c1.x = c at htr hdet ⊢
  have hD0 : 0 ≤ Real.sqrt ((a - b) ^ 2 + 4 * c ^ 2) := Real.sqrt_nonneg _
  have hDle : Real.sqrt ((a - b) ^ 2 + 4 * c ^ 2) ≤ a + b := by
    rw [Real.sqrt_le_iff]
    exact ⟨htr, by nlinarith⟩
  refine ⟨hr, hpsd, by linarith, by linarith, ?_, ?_⟩
  · apply div_nonneg <;> linarith
  · apply div_nonneg <;> linarith

theorem fieldOps_isExact :
    (fieldOps Real.sqrt (fun a => |a|) (fun a b => decide (a ≤ b))).IsExact :=
  { add := fun _ _ => rfl
    sub := fun _ _ => rfl
    mul := fun _ _ => rfl
    div := fun _ _ => rfl
    neg := fun _ => rfl
    sqrt := fun _ => rfl
    abs := fun _ => rfl
    le := fun _ _ => by simp [fieldOps]
    lit := fun _ _ => rfl }

/-- C8, witness: the matrix `[[2, 0], [0, 1]]` in the real field. -/
theorem eigenvalues_exact_witness :
    (fieldOps Real.sqrt (fun a => |a|) (fun a b => decide (a ≤ b))).IsExact ∧
    lambda0 (fieldOps Real.sqrt (fun a => |a|) (fun a b => decide (a ≤ b))) 2 1 0
      + lambda1 (fieldOps Real.sqrt (fun a => |a|) (fun a b => decide (a ≤ b))) 2 1 0
      = 2 + 1 ∧
    lambda0 (fieldOps Real.sqrt (fun a => |a|) (fun a b => decide (a ≤ b))) 2 1 0
      * lambda1 (fieldOps Real.sqrt (fun a => |a|) (fun a b => decide (a ≤ b))) 2 1 0
      = 2 * 1 - 0 ^ 2 :=
  ⟨fieldOps_isExact,
    (eigenvalues_exact _ fieldOps_isExact 2 1 0).2.2.2.2.2.2.2.1,
    (eigenvalues_exact _ fieldOps_isExact 2 1 0).2.2.2.2.2.2.2.2.1⟩

/-- C10, witness: identity camera, position `(0, 0, 1)`, identity covariance, in the real
field. -/
theorem cov2d_psd_witness :
    (fieldOps Real.sqrt (fun a => |a|) (fun a b => decide (a ≤ b))).IsExact ∧
    (Mat4.mulVec (fieldOps Real.sqrt (fun a => |a|) (fun a b => decide (a ≤ b)))
      Mat4.identity (⟨0, 0, 1, 1⟩ : Vec4 ℝ)).z ≠ 0 ∧
    (Mat4.toMat2 (Mat4.identity : Mat4 ℝ)).IsSymm ∧
    (packedCov3d (⟨1, 0, 0⟩ : Vec3 ℝ) ⟨1, 0, 1⟩).IsPSD ∧
    (projectCov (fieldOps Real.sqrt (fun a => |a|) (fun a b => decide (a ≤ b)))
      Mat4.identity Mat4.identity ⟨0, 0, 1, 1⟩ ⟨1, 0, 0⟩ ⟨1, 0, 1⟩).IsPSD := by
  have hz : (Mat4.mulVec (fieldOps Real.sqrt (fun a => |a|) (fun a b => decide (a ≤ b)))
      Mat4.identity (⟨0, 0, 1, 1⟩ : Vec4 ℝ)).z ≠ 0 := by
    simp [Mat4.mulVec, dot4, fieldOps, Mat4.identity]
  have hP : (Mat4.toMat2 (Mat4.identity : Mat4 ℝ)).IsSymm := by
    simp [Mat4.toMat2, Mat4.identity, Mat2.IsSymm]
  have hcov : (packedCov3d (⟨1, 0, 0⟩ : Vec3 ℝ) ⟨1, 0, 1⟩).IsPSD := by
    refine ⟨⟨rfl, rfl, rfl⟩, fun x y z => ?_⟩
    simp only [packedCov3d, Mat3.ofComponents, Mat3.quadForm]
    nlinarith [mul_self_nonneg x, mul_self_nonneg y, mul_self_nonneg z]
  exact ⟨fieldOps_isExact, hz, hP, hcov,
    (cov2d_psd _ fieldOps_isExact Mat4.identity Mat4.identity ⟨0, 0, 1, 1⟩ ⟨1, 0, 0⟩ ⟨1, 0, 1⟩
      hz hP hcov).2.1⟩

end Exact

end pygs

namespace pygs

/-! ## Construction of the graphics pipeline -/

/-- When compilation fails, `CreateShaderModule` writes the compiler's message to `std::cerr` and
returns `VK_NULL_HANDLE`. -/
theorem CreateShaderModule_of_failure (ext : Externals) (device : Nat)
    (stage : VkShaderStageFlagBits) (source : String) (cerr : List String)
    (kind : shaderc_shader_kind)
    (hkind : kind = match stage with
      | .VK_SHADER_STAGE_VERTEX_BIT => shaderc_shader_kind.shaderc_glsl_vertex_shader
      | .VK_SHADER_STAGE_FRAGMENT_BIT => shaderc_shader_kind.shaderc_glsl_fragment_shader)
    (h : (ext.CompileGlslToSpv source kind).success = false) :
    CreateShaderModule ext device stage source cerr
      = (VK_NULL_HANDLE, cerr ++ [(ext.CompileGlslToSpv source kind).errorMessage]) := by
  subst hkind
  unfold CreateShaderModule
  simp only [h, if_true]

/-- When compilation succeeds, `CreateShaderModule` returns the handle stored by
`vkCreateShaderModule` and writes nothing. -/
theorem CreateShaderModule_of_success (ext : Externals) (device : Nat)
    (stage : VkShaderStageFlagBits) (source : String) (cerr : List String)
    (kind : shaderc_shader_kind)
    (hkind : kind = match stage with
      | .VK_SHADER_STAGE_VERTEX_BIT => shaderc_shader_kind.shaderc_glsl_vertex_shader
      | .VK_SHADER_STAGE_FRAGMENT_BIT => shaderc_shader_kind.shaderc_glsl_fragment_shader)
    (h : (ext.CompileGlslToSpv source kind).success = true) :
    CreateShaderModule ext device stage source cerr
      = (ext.vkCreateShaderModule device (ext.CompileGlslToSpv source kind).code, cerr) := by
  subst hkind
  unfold CreateShaderModule
  simp [h]

/-- What the constructor does, for every compiler and every driver.  The vertex stage comes
first and the fragment stage second; the module of a stage is `VK_NULL_HANDLE` when the
compilation of that stage fails and the handle stored by `vkCreateShaderModule` otherwise;
`std::cerr` receives the message of each failing stage, the vertex one first; and the handle the
pipeline holds is the one `vkCreateGraphicsPipelines` stores for these two stages and the given
layout.  The constructor has no other outcome: it tests neither the modules nor any result. -/
theorem GraphicsPipeline_create_spec (ext : Externals) (device : Nat)
    (create_info : GraphicsPipelineCreateInfo) (cerr : List String) :
    (pipelineInfo ext device create_info cerr).1 =
      { stages :=
          [⟨.VK_SHADER_STAGE_VERTEX_BIT,
              if (ext.CompileGlslToSpv create_info.vertex_shader
                    shaderc_shader_kind.shaderc_glsl_vertex_shader).success = false
              then VK_NULL_HANDLE
              else ext.vkCreateShaderModule device
                (ext.CompileGlslToSpv create_info.vertex_shader
                  shaderc_shader_kind.shaderc_glsl_vertex_shader).code,
              "main"⟩,
            ⟨.VK_SHADER_STAGE_FRAGMENT_BIT,
              if (ext.CompileGlslToSpv create_info.fragment_shader
                    shaderc_shader_kind.shaderc_glsl_fragment_shader).success = false
              then VK_NULL_HANDLE
              else ext.vkCreateShaderModule device
                (ext.CompileGlslToSpv create_info.fragment_shader
                  shaderc_shader_kind.shaderc_glsl_fragment_shader).code,
              "main"⟩]
        layout := create_info.layout } ∧
    (GraphicsPipeline.create ext device create_info cerr).2 =
      cerr ++
        (if (ext.CompileGlslToSpv create_info.vertex_shader
              shaderc_shader_kind.shaderc_glsl_vertex_shader).success = false
          then [(ext.CompileGlslToSpv create_info.vertex_shader
              shaderc_shader_kind.shaderc_glsl_vertex_shader).errorMessage] else []) ++
        (if (ext.CompileGlslToSpv create_info.fragment_shader
              shaderc_shader_kind.shaderc_glsl_fragment_shader).success = false
          then [(ext.CompileGlslToSpv create_info.fragment_shader
              shaderc_shader_kind.shaderc_glsl_fragment_shader).errorMessage] else []) ∧
    (GraphicsPipeline.create ext device create_info cerr).1.handle
      = some (ext.vkCreateGraphicsPipelines device
          (pipelineInfo ext device create_info cerr).1) := by
  refine ⟨?_, ?_, rfl⟩
  · unfold pipelineInfo CreateShaderModule
    dsimp only
    split_ifs <;> rfl
  · show (pipelineInfo ext device create_info cerr).2 = _
    unfold pipelineInfo CreateShaderModule
    dsimp only
    split_ifs <;> simp

/-! ## The pass theorems at `demoScene` -/

/-- C1, witness: `demoScene` dispatched over eight ids in a shuffled order. -/
theorem order_pass_exact_count_witness :
    demoScene.point_count < 2 ^ 32 ∧ demoScene.point_count ≤ 8 ∧
    [7, 5, 2, 0, 6, 1, 3, 4].Perm (List.range 8) ∧ clearedOutput.instanceCount = 0 ∧
    (runPass F32.ops demoScene [7, 5, 2, 0, 6, 1, 3, 4] clearedOutput).instanceCount
      = ((List.range demoScene.point_count).filter (fun id =>
          frustumTest F32.ops (ndc F32.ops demoScene id) &&
            sizeTest F32.ops (eigenRadii F32.ops (cov2d F32.ops demoScene id)))).length :=
  ⟨by decide, by decide, by decide, rfl,
    (order_pass_exact_count F32.ops demoScene 8 [7, 5, 2, 0, 6, 1, 3, 4] clearedOutput
      (by decide) (by decide) (by decide) rfl).1⟩

/-- C2, witness: `demoScene`; splat 0 occurs in the output, and a splat whose centre fails the
frustum test does not. -/
theorem order_pass_visible_set_witness :
    demoScene.point_count < 2 ^ 32 ∧ demoScene.point_count ≤ 8 ∧
    [7, 5, 2, 0, 6, 1, 3, 4].Perm (List.range 8) ∧ clearedOutput.instanceCount = 0 ∧
    (∃ s, s < (runPass F32.ops demoScene [7, 5, 2, 0, 6, 1, 3, 4] clearedOutput).instanceCount ∧
      (runPass F32.ops demoScene [7, 5, 2, 0, 6, 1, 3, 4] clearedOutput).index s = 0) ∧
    (∀ id, frustumTest F32.ops (ndc F32.ops demoScene id) = false →
      ¬ ∃ s, s < (runPass F32.ops demoScene [7, 5, 2, 0, 6, 1, 3, 4] clearedOutput).instanceCount
        ∧ (runPass F32.ops demoScene [7, 5, 2, 0, 6, 1, 3, 4] clearedOutput).index s = id) :=
  ⟨by decide, by decide, by decide, rfl,
    ((order_pass_visible_set F32.ops demoScene 8 [7, 5, 2, 0, 6, 1, 3, 4] clearedOutput
      (by decide) (by decide) (by decide) rfl).1 0).mpr
      ⟨by decide, (frustumTest_iff F32.ops _).mp demo_frustum0,
        (sizeTest_iff F32.ops _).mp demo_size0⟩,
    (order_pass_visible_set F32.ops demoScene 8 [7, 5, 2, 0, 6, 1, 3, 4] clearedOutput
      (by decide) (by decide) (by decide) rfl).2.1⟩

/-- C3, witness: `demoScene` dispatched over eight ids in a shuffled order. -/
theorem order_pass_slots_witness :
    demoScene.point_count < 2 ^ 32 ∧ demoScene.point_count ≤ 8 ∧
    [7, 5, 2, 0, 6, 1, 3, 4].Perm (List.range 8) ∧ clearedOutput.instanceCount = 0 ∧
    (runPass F32.ops demoScene [7, 5, 2, 0, 6, 1, 3, 4] clearedOutput).instanceCount
      ≤ demoScene.point_count ∧
    (∀ s, s < (runPass F32.ops demoScene [7, 5, 2, 0, 6, 1, 3, 4] clearedOutput).instanceCount →
      (writtenSlots F32.ops demoScene [7, 5, 2, 0, 6, 1, 3, 4] clearedOutput).count s = 1) :=
  ⟨by decide, by decide, by decide, rfl,
    (order_pass_slots F32.ops demoScene 8 [7, 5, 2, 0, 6, 1, 3, 4] clearedOutput
      (by decide) (by decide) (by decide) rfl).2.2.2.2,
    (order_pass_slots F32.ops demoScene 8 [7, 5, 2, 0, 6, 1, 3, 4] clearedOutput
      (by decide) (by decide) (by decide) rfl).1⟩

/-- C5, witness: `demoScene` run in a shuffled order and in ascending order, the second run
started from an output whose other fields differ. -/
theorem order_pass_order_independent_witness :
    demoScene.point_count < 2 ^ 32 ∧ demoScene.point_count ≤ 8 ∧
    [7, 5, 2, 0, 6, 1, 3, 4].Perm (List.range 8) ∧
    [0, 1, 2, 3, 4, 5, 6, 7].Perm (List.range 8) ∧
    clearedOutput.instanceCount = 0 ∧
    (runPass F32.ops demoScene [7, 5, 2, 0, 6, 1, 3, 4] clearedOutput).instanceCount
      = (runPass F32.ops demoScene [0, 1, 2, 3, 4, 5, 6, 7] clearedOutput).instanceCount ∧
    (visiblePairs (runPass F32.ops demoScene [7, 5, 2, 0, 6, 1, 3, 4] clearedOutput)).Perm
      (visiblePairs (runPass F32.ops demoScene [0, 1, 2, 3, 4, 5, 6, 7] clearedOutput)) :=
  ⟨by decide, by decide, by decide, by decide, rfl,
    (order_pass_order_independent F32.ops demoScene 8 [7, 5, 2, 0, 6, 1, 3, 4]
      [0, 1, 2, 3, 4, 5, 6, 7] clearedOutput clearedOutput
      (by decide) (by decide) (by decide) (by decide) rfl rfl).1,
    (order_pass_order_independent F32.ops demoScene 8 [7, 5, 2, 0, 6, 1, 3, 4]
      [0, 1, 2, 3, 4, 5, 6, 7] clearedOutput clearedOutput
      (by decide) (by decide) (by decide) (by decide) rfl rfl).2.1⟩

end pygs
